import Mathlib

/-!
STL secure transport: connection data path, handshake plumbing and certificates.

A shallow embedding of `stl/conn.go` and `certificate.go`.

* Byte slices are lists of `Fin 256`.
* `uint64` values are natural numbers reduced modulo `2^64` at every increment and
  at every `binary.LittleEndian.PutUint64`.
* A Go pointer that may be `nil` is an `Option`.
* Functions that mutate their receiver return the receiver's new state next to the
  Go return values, also when they return an error.
* The collaborators that the repository only calls (the signcryption engine, the
  msgpack serializer, the handshakers, the `net.Conn`) are parameters or test
  doubles whose behaviour is scripted by their state.
-/

set_option autoImplicit false

namespace Signcryption

/-! ## Bytes and little-endian integers -/

abbrev Byte := Fin 256

abbrev Bytes := List Byte

/-- The constant `maxPlaintext` of `conn.go`. -/
def maxPlaintext : Nat := 16384

/-- The modulus of `uint64` arithmetic. -/
def u64 : Nat := 2 ^ 64

/-- Little-endian digits: the `k` low bytes of `n`, least significant first. -/
def putLE : Nat → Nat → Bytes
  | 0, _ => []
  | k + 1, n => Fin.ofNat (n % 256) :: putLE k (n / 256)

/-- Value of a little-endian byte string. -/
def getLE : Bytes → Nat
  | [] => 0
  | b :: bs => b.val + 256 * getLE bs

/-- Go `binary.LittleEndian.PutUint64(buf, v)` on an 8-byte buffer; the argument is
converted to `uint64`, so only `v % 2^64` is stored. -/
def PutUint64 (v : Nat) : Bytes := putLE 8 v

/-- Go `binary.LittleEndian.Uint64(b)`: the value of the first 8 bytes. -/
def Uint64 (b : Bytes) : Nat := getLE (b.take 8)

/-! ## Errors -/

/-- Errors, following `github.com/pkg/errors`: `new` is `errors.New`/`errors.Errorf`,
`wrap` is `errors.Wrapf(cause, msg)`, and `ext` is an error value produced by a
collaborator (stream, engine, serializer, handshaker). -/
inductive Err where
  | ext (what : String)
  | new (msg : String)
  | wrap (msg : String) (cause : Err)
  deriving DecidableEq, Repr

/-- The method `Error()` of an error: a wrapped error prints its message, a colon and
its cause. -/
def Err.Error : Err → String
  | .ext what => what
  | .new msg => msg
  | .wrap msg cause => msg ++ ": " ++ cause.Error

/-- The error standing for a Go run-time panic on a nil pointer dereference. A panic
is not an error return; the embedding reports it as a failure that leaves the state
as it was when the panic happened. -/
def panicNil : Err := .ext "panic: nil pointer dereference"

namespace STL

/-! ## The byte stream (`net.Conn`) -/

/-- Test double for the `net.Conn` held by a `Conn`.

* `inbound`: the bytes the peer has put on the wire and that have not been read,
  in order; when they run out the stream reports end of file.
* `outbound`: every byte this end has put on the wire, in order.
* `readFaults`, `writeFaults`: script of injected failures, one entry per call:
  `none` lets the call run, `some k` makes the call fail after `k` bytes.
* `sent`: ghost record of the payloads of the write calls that completed. -/
structure NetConn where
  inbound : Bytes
  outbound : Bytes
  readFaults : List (Option Nat)
  writeFaults : List (Option Nat)
  sent : List Bytes
  deriving DecidableEq, Repr

/-- Go `io.ReadFull` without an injected fault: all `n` bytes or an end-of-file error
(`io.EOF` when nothing was read, `io.ErrUnexpectedEOF` otherwise). -/
def NetConn.readAvail (s : NetConn) (n : Nat) : Except Err Bytes × NetConn :=
  if n ≤ s.inbound.length then
    (.ok (s.inbound.take n), { s with inbound := s.inbound.drop n })
  else if s.inbound.length = 0 then
    (.error (.ext "EOF"), s)
  else
    (.error (.ext "unexpected EOF"), { s with inbound := [] })

/-- Go `io.ReadFull(conn, buf)` with `len(buf) = n`. A zero-length buffer returns at
once without touching the stream. -/
def NetConn.ReadFull (s : NetConn) (n : Nat) : Except Err Bytes × NetConn :=
  if n = 0 then (.ok [], s)
  else
    match s.readFaults with
    | [] => s.readAvail n
    | none :: fs => { s with readFaults := fs }.readAvail n
    | some k :: fs =>
      (.error (.ext "read failed"), { s with inbound := s.inbound.drop k, readFaults := fs })

/-- Go `io.Copy(conn, bytes.NewBuffer(p))`: the whole payload is written, or the
write fails after a part of it. -/
def NetConn.Copy (s : NetConn) (p : Bytes) : Option Err × NetConn :=
  match s.writeFaults with
  | [] => (none, { s with outbound := s.outbound ++ p, sent := s.sent ++ [p] })
  | none :: fs =>
    (none, { s with outbound := s.outbound ++ p, sent := s.sent ++ [p], writeFaults := fs })
  | some k :: fs =>
    (some (.ext "write failed"), { s with outbound := s.outbound ++ p.take k, writeFaults := fs })

/-! ## The signcryption engine and the segment serializer -/

/-- The collaborators of the data path, as pure functions.

* `Signcrypt rnd priv pub plaintext additionalData` is `aal.AAL.Signcrypt`; `rnd` is
  what the engine draws from its randomness source during the call.
* `Unsigncrypt pub priv additionalData output` is `aal.AAL.Unsigncrypt`, returning the
  plaintext and the `valid` flag.
* `Marshal`/`Unmarshal` are `msgpack.Marshal`/`msgpack.Unmarshal` at the type
  `*aal.SigncryptionOutput` (the type `Out`). -/
structure Deps (Priv Pub Out : Type) where
  Signcrypt : Nat → Option Priv → Option Pub → Bytes → Bytes → Except Err Out
  Unsigncrypt : Option Pub → Option Priv → Bytes → Out → Except Err (Bytes × Bool)
  Marshal : Out → Except Err Bytes
  Unmarshal : Bytes → Except Err Out

/-- State of the engine handle `Conn.aal`.

* `entropy`: the values the randomness source will deliver, one per `Signcrypt` call
  (`0` once the list is exhausted).
* `signcrypted`: ghost record of the `(plaintext, additionalData)` of every
  `Signcrypt` call, oldest first.
* `unsigncrypted`: ghost record of every `Unsigncrypt` call: its `additionalData` and
  whether the engine reported the segment authentic. -/
structure AAL where
  entropy : List Nat
  signcrypted : List (Bytes × Bytes)
  unsigncrypted : List (Bytes × Bool)
  deriving DecidableEq, Repr

/-- Go `aal.NewP256()`: a fresh engine handle fed by `entropy`. -/
def AAL.NewP256 (entropy : List Nat) : AAL :=
  { entropy := entropy, signcrypted := [], unsigncrypted := [] }

/-- One `Signcrypt` call through the handle: draws a value from the randomness source
and records the call. -/
def AAL.Signcrypt {Priv Pub Out : Type} (a : AAL) (d : Deps Priv Pub Out)
    (priv : Option Priv) (pub : Option Pub) (b additionalData : Bytes) :
    Except Err Out × AAL :=
  (d.Signcrypt (a.entropy.headD 0) priv pub b additionalData,
    { a with entropy := a.entropy.tail, signcrypted := a.signcrypted ++ [(b, additionalData)] })

/-- Whether an `Unsigncrypt` result reports the segment authentic. -/
def authentic (r : Except Err (Bytes × Bool)) : Bool :=
  match r with
  | .ok (_, valid) => valid
  | .error _ => false

/-- One `Unsigncrypt` call through the handle; records the call. -/
def AAL.Unsigncrypt {Priv Pub Out : Type} (a : AAL) (d : Deps Priv Pub Out)
    (pub : Option Pub) (priv : Option Priv) (additionalData : Bytes) (segment : Out) :
    Except Err (Bytes × Bool) × AAL :=
  let r := d.Unsigncrypt pub priv additionalData segment
  (r, { a with unsigncrypted := a.unsigncrypted ++ [(additionalData, authentic r)] })

/-! ## `Conn` -/

/-- The struct `Conn` of `conn.go`. `CC` and `SC` are the types of the client and the
server configuration. `readBuf` holds the unread part of the `bytes.Buffer`. -/
structure Conn (CC SC Priv Pub : Type) where
  conn : NetConn
  clientConfig : Option CC
  serverConfig : Option SC
  sessionKey : Bytes
  publicKey : Option Pub
  privateKey : Option Priv
  aal : AAL
  readBuf : Bytes
  writtenSegments : Nat
  readSegments : Nat

section DataPath

variable {CC SC Priv Pub Out : Type}

/-- The method `Conn.writeSegment` of `conn.go`. -/
def Conn.writeSegment (d : Deps Priv Pub Out) (c : Conn CC SC Priv Pub) (b : Bytes) :
    Option Err × Conn CC SC Priv Pub :=
  let additionalData := c.sessionKey ++ PutUint64 c.writtenSegments
  let (output, aal1) := c.aal.Signcrypt d c.privateKey c.publicKey b additionalData
  let c1 := { c with aal := aal1 }
  match output with
  | .error err => (some (.wrap "error signcrypting segment" err), c1)
  | .ok output =>
    match d.Marshal output with
    | .error err => (some (.wrap "error marshaling write segment" err), c1)
    | .ok outputBytes =>
      let numBytes := outputBytes.length
      let numBytesBytes := PutUint64 numBytes
      let buf := numBytesBytes ++ outputBytes
      match c1.conn.Copy buf with
      | (some err, conn1) =>
        (some (.wrap "error writing segment to connection" err), { c1 with conn := conn1 })
      | (none, conn1) =>
        (none, { c1 with conn := conn1, writtenSegments := (c1.writtenSegments + 1) % u64 })

/-- The loop of `Conn.Write`: `i` and `written` are the loop variables. The first
argument bounds the number of iterations; `i` grows by `maxPlaintext` in each
iteration, so `len(b)` iterations are never used up (`Write_eq` gives the result
without the bound). The loop variables are natural numbers: a Go slice is too short
for `i + maxPlaintext` to overflow an `int`. -/
def Conn.writeLoop (d : Deps Priv Pub Out) (b : Bytes) :
    Nat → Nat → Nat → Conn CC SC Priv Pub → Nat × Option Err × Conn CC SC Priv Pub
  | 0, _, written, c => (written, none, c)
  | fuel + 1, i, written, c =>
    if i < b.length then
      let writeSize := if b.length - written > maxPlaintext then maxPlaintext
        else b.length - written
      match c.writeSegment d ((b.drop written).take writeSize) with
      | (some err, c1) => (written, some (.wrap "error writing segment" err), c1)
      | (none, c1) => Conn.writeLoop d b fuel (i + maxPlaintext) (written + writeSize) c1
    else (written, none, c)

/-- The method `Conn.Write` of `conn.go`. -/
def Conn.Write (d : Deps Priv Pub Out) (c : Conn CC SC Priv Pub) (b : Bytes) :
    Nat × Option Err × Conn CC SC Priv Pub :=
  Conn.writeLoop d b b.length 0 0 c

/-- The method `Conn.readSegment` of `conn.go`. A length field that announces more
bytes than the stream delivers makes the second read fail. -/
def Conn.readSegment (d : Deps Priv Pub Out) (c : Conn CC SC Priv Pub) :
    Option Err × Conn CC SC Priv Pub :=
  let additionalData := c.sessionKey ++ PutUint64 c.readSegments
  match c.conn.ReadFull 8 with
  | (.error err, conn1) =>
    (some (.wrap "error reading segment num bytes" err), { c with conn := conn1 })
  | (.ok numBytesBytes, conn1) =>
    let numBytes := Uint64 numBytesBytes
    match conn1.ReadFull numBytes with
    | (.error err, conn2) =>
      (some (.wrap "error reading segment bytes" err), { c with conn := conn2 })
    | (.ok segmentBytes, conn2) =>
      let c2 := { c with conn := conn2 }
      match d.Unmarshal segmentBytes with
      | .error err => (some (.wrap "error unmarshaling segment" err), c2)
      | .ok segment =>
        let (r, aal1) := c2.aal.Unsigncrypt d c2.publicKey c2.privateKey additionalData segment
        let c3 := { c2 with aal := aal1 }
        match r with
        | .error err => (some (.wrap "error unsigncrypting segment" err), c3)
        | .ok (pt, valid) =>
          if !valid then (some (.new "error: segment is invalid"), c3)
          else (none, { c3 with readBuf := c3.readBuf ++ pt,
                                readSegments := (c3.readSegments + 1) % u64 })

/-- Go `(*bytes.Buffer).Read(p)` with `len(p) = n` on the unread bytes `buf`: the
bytes copied into `p`, the error, and the bytes left unread. An empty buffer gives
`io.EOF` unless `n = 0`. -/
def bufferRead (buf : Bytes) (n : Nat) : Bytes × Option Err × Bytes :=
  if buf.length = 0 then
    if n = 0 then ([], none, []) else ([], some (.ext "EOF"), [])
  else (buf.take n, none, buf.drop n)

/-- The final `return c.readBuf.Read(b)` of `Conn.Read`. -/
def Conn.drain (c : Conn CC SC Priv Pub) (n : Nat) : Bytes × Option Err × Conn CC SC Priv Pub :=
  let (out, err, rest) := bufferRead c.readBuf n
  (out, err, { c with readBuf := rest })

/-- The method `Conn.Read` of `conn.go`, called with a buffer of length `n`; the first
component is the bytes copied into the caller's buffer (their number is the Go
return value). The `for` loop of the source breaks when `c.readBuf.Len() >= 0`,
which holds of every buffer, so its body runs exactly once. -/
def Conn.Read (d : Deps Priv Pub Out) (c : Conn CC SC Priv Pub) (n : Nat) :
    Bytes × Option Err × Conn CC SC Priv Pub :=
  if c.readBuf.length = 0 then
    match c.readSegment d with
    | (some err, c1) => ([], some (.wrap "error reading segment" err), c1)
    | (none, c1) => c1.drain n
  else c.drain n

end DataPath

/-! ## Call sequences and the segmentation the specification describes -/

section Harness

variable {CC SC Priv Pub Out : Type}

/-- The segmentation in the specification's words: a buffer of length `L` gives
`ceil(L / 16384)` segments and segment `i` is `b[i*16384 .. min((i+1)*16384, L))`. -/
def specSegments (b : Bytes) : List Bytes :=
  (List.range ((b.length + maxPlaintext - 1) / maxPlaintext)).map fun i =>
    (b.drop (i * maxPlaintext)).take (min ((i + 1) * maxPlaintext) b.length - i * maxPlaintext)

/-- Calls `writeSegment` on each plaintext in turn and stops at the first failure;
returns the number of plaintext bytes written. `Write` is proved to do this on
`specSegments`. -/
def Conn.writeSegments (d : Deps Priv Pub Out) :
    Conn CC SC Priv Pub → List Bytes → Nat × Option Err × Conn CC SC Priv Pub
  | c, [] => (0, none, c)
  | c, seg :: segs =>
    match c.writeSegment d seg with
    | (some err, c1) => (0, some (.wrap "error writing segment" err), c1)
    | (none, c1) =>
      let (n, err, c2) := Conn.writeSegments d c1 segs
      (seg.length + n, err, c2)

/-- A caller's sequence of `Write` calls, one per buffer, continued after errors;
returns each call's results and the final state. -/
def Conn.Writes (d : Deps Priv Pub Out) :
    Conn CC SC Priv Pub → List Bytes → List (Nat × Option Err) × Conn CC SC Priv Pub
  | c, [] => ([], c)
  | c, b :: bs =>
    let (n, err, c1) := c.Write d b
    let (rs, c2) := Conn.Writes d c1 bs
    ((n, err) :: rs, c2)

/-- A caller's sequence of `Read` calls, one per buffer length, continued after
errors; returns each call's results and the final state. -/
def Conn.Reads (d : Deps Priv Pub Out) :
    Conn CC SC Priv Pub → List Nat → List (Bytes × Option Err) × Conn CC SC Priv Pub
  | c, [] => ([], c)
  | c, n :: ns =>
    let (out, err, c1) := c.Read d n
    let (rs, c2) := Conn.Reads d c1 ns
    ((out, err) :: rs, c2)

/-- A receiving caller: `Read` calls with buffers of the given lengths, repeated until
`need` bytes have been returned (no call when `need = 0`), an error occurs or the
caller's list of buffers ends. Returns the bytes received in order, the error, and
the final state. -/
def Conn.readUntil (d : Deps Priv Pub Out) :
    List Nat → Nat → Conn CC SC Priv Pub → Bytes → Bytes × Option Err × Conn CC SC Priv Pub
  | _, 0, c, acc => (acc, none, c)
  | [], _ + 1, c, acc => (acc, none, c)
  | n :: ns, need + 1, c, acc =>
    match c.Read d n with
    | (out, some err, c1) => (acc ++ out, some err, c1)
    | (out, none, c1) => Conn.readUntil d ns (need + 1 - out.length) c1 (acc ++ out)

/-- The frames a sender emits for a list of plaintexts, starting at write counter
`ctr` under session key `key`: each plaintext is signcrypted under
`key ‖ le64(counter)`, serialized and framed by its 8-byte length, and the counter
advances by one from frame to frame. -/
inductive Frames (d : Deps Priv Pub Out) (key : Bytes) (priv : Option Priv) (pub : Option Pub) :
    Nat → List Bytes → List Bytes → Prop where
  | nil (ctr : Nat) : Frames d key priv pub ctr [] []
  | cons (ctr rnd : Nat) (seg : Bytes) (segs : List Bytes) (o : Out) (m : Bytes)
      (frames : List Bytes) :
      d.Signcrypt rnd priv pub seg (key ++ PutUint64 ctr) = .ok o →
      d.Marshal o = .ok m →
      Frames d key priv pub ((ctr + 1) % u64) segs frames →
      Frames d key priv pub ctr (seg :: segs) ((PutUint64 m.length ++ m) :: frames)

/-- Between the states `c` and `c'` the frames `frames`, carrying the plaintexts
`segs`, were emitted: they are what the stream recorded, the write counter advanced
by their number, and the keys did not change. -/
def Emits (d : Deps Priv Pub Out) (c c' : Conn CC SC Priv Pub) (segs frames : List Bytes) :
    Prop :=
  c'.sessionKey = c.sessionKey ∧ c'.publicKey = c.publicKey ∧ c'.privateKey = c.privateKey ∧
  Frames d c.sessionKey c.privateKey c.publicKey c.writtenSegments segs frames ∧
  c'.conn.sent = c.conn.sent ++ frames ∧
  c'.writtenSegments = (c.writtenSegments + frames.length) % u64

/-- The receiver `r` is in step with a sender that holds the keys `priv`/`pub`: the
unread stream is exactly the frames `frames` of the non-empty plaintexts `segs`,
written from the counter value the receiver's read counter has now, under the
receiver's session key, and the stream is reliable. -/
def Synced (d : Deps Priv Pub Out) (priv : Option Priv) (pub : Option Pub)
    (r : Conn CC SC Priv Pub) (segs frames : List Bytes) : Prop :=
  r.conn.readFaults = [] ∧
  Frames d r.sessionKey priv pub r.readSegments segs frames ∧
  r.conn.inbound = frames.flatten ∧
  ∀ s ∈ segs, s ≠ []

/-- The additional data of `n` consecutive segments from counter `ctr` on. -/
def consecutiveAD (key : Bytes) (ctr n : Nat) : List Bytes :=
  (List.range n).map fun k => key ++ PutUint64 (ctr + k)

/-- The frame of one emitted segment: it is the length-framed serialization of what
`Signcrypt` returned for some plaintext under `key ‖ le64(ctr)`. -/
def IsSegmentFrame (d : Deps Priv Pub Out) (key : Bytes) (priv : Option Priv)
    (pub : Option Pub) (ctr : Nat) (frame : Bytes) : Prop :=
  ∃ rnd seg o m, d.Signcrypt rnd priv pub seg (key ++ PutUint64 ctr) = .ok o ∧
    d.Marshal o = .ok m ∧ frame = PutUint64 m.length ++ m

/-- Between `c` and `c'` the engine was asked to unsigncrypt `calls`, in this order:
they are what the handle recorded, the read counter advanced by the number of
authenticated calls, and these were made under consecutive counter values. -/
def Fetched (c c' : Conn CC SC Priv Pub) (calls : List (Bytes × Bool)) : Prop :=
  c'.sessionKey = c.sessionKey ∧
  c'.aal.unsigncrypted = c.aal.unsigncrypted ++ calls ∧
  c'.readSegments = (c.readSegments + (calls.filter (·.2)).length) % u64 ∧
  (calls.filter (·.2)).map Prod.fst =
    consecutiveAD c.sessionKey c.readSegments (calls.filter (·.2)).length

/-- Between `c` and `c'` the engine signcrypted `n` times, under the additional data
of `n` consecutive counter values from `c`'s write counter on; when `ok` holds the
write counter advanced by `n`. -/
def SignLog (c c' : Conn CC SC Priv Pub) (n : Nat) (ok : Prop) : Prop :=
  c'.sessionKey = c.sessionKey ∧
  c'.aal.signcrypted.map Prod.snd =
    c.aal.signcrypted.map Prod.snd ++ consecutiveAD c.sessionKey c.writtenSegments n ∧
  c'.writtenSegments < u64 ∧
  (ok → c'.writtenSegments = (c.writtenSegments + n) % u64)

/-- Between `c` and `c'` the engine unsigncrypted `n` times, under the additional data
of `n` consecutive counter values from `c`'s read counter on; when `ok` holds the
read counter advanced by `n`. -/
def UnsignLog (c c' : Conn CC SC Priv Pub) (n : Nat) (ok : Prop) : Prop :=
  c'.sessionKey = c.sessionKey ∧
  c'.aal.unsigncrypted.map Prod.fst =
    c.aal.unsigncrypted.map Prod.fst ++ consecutiveAD c.sessionKey c.readSegments n ∧
  c'.readSegments < u64 ∧
  (ok → c'.readSegments = (c.readSegments + n) % u64)

end Harness

/-! ## Configuration and constructors -/

/-- The interface method `SessionVerifier.VerifySession`: client identity, client
handshake public key, server public key, tunnel identity, tunnel public key. The
Go method returns `(bool, error)`. -/
abbrev SessionVerifier (EcPub : Type) :=
  Bytes → Option EcPub → Option EcPub → Bytes → Option EcPub → Bool × Option Err

/-- The struct `ClientConfig` of `conn.go`. `EcPriv`/`EcPub` stand for the ECDSA and
ECIES key types (the same curve points), `SPriv`/`SPub` for the signcryption keys. -/
structure ClientConfig (EcPriv EcPub SPriv SPub : Type) where
  ClientID : Bytes
  HandshakePrivateKey : Option EcPriv
  EncryptionPrivateKey : Option SPriv
  ServerEncryptionPublicKey : Option SPub
  ServerHandshakePublicKey : Option EcPub
  ServerID : Bytes
  TunnelEncryptionPublicKey : Option EcPub
  TunnelID : Bytes

/-- The struct `ServerConfig` of `conn.go`. -/
structure ServerConfig (EcPriv EcPub SPriv : Type) where
  ID : Bytes
  SignaturePrivateKey : Option EcPriv
  EncryptionPrivateKey : Option SPriv
  SessionVerifier : SessionVerifier EcPub

section Handshake

variable {EcPriv EcPub SPriv SPub Req Resp : Type}

/-- A `Conn` of the package: its configurations have the types of `conn.go`. -/
abbrev StlConn (EcPriv EcPub SPriv SPub : Type) :=
  Conn (ClientConfig EcPriv EcPub SPriv SPub) (ServerConfig EcPriv EcPub SPriv) SPriv SPub

/-- The function `NewConn` of `conn.go`; `entropy` feeds the engine created by
`aal.NewP256()`. Fields the Go literal leaves out have their zero value. -/
def NewConn (c : NetConn) (config : ClientConfig EcPriv EcPub SPriv SPub)
    (entropy : List Nat) : StlConn EcPriv EcPub SPriv SPub :=
  { conn := c
    clientConfig := some config
    serverConfig := none
    sessionKey := []
    publicKey := config.ServerEncryptionPublicKey
    privateKey := config.EncryptionPrivateKey
    aal := AAL.NewP256 entropy
    readBuf := []
    writtenSegments := 0
    readSegments := 0 }

/-- The function `NewServerConn` of `conn.go`. -/
def NewServerConn (c : NetConn) (config : ServerConfig EcPriv EcPub SPriv)
    (entropy : List Nat) : StlConn EcPriv EcPub SPriv SPub :=
  { conn := c
    clientConfig := none
    serverConfig := some config
    sessionKey := []
    publicKey := none
    privateKey := config.EncryptionPrivateKey
    aal := AAL.NewP256 entropy
    readBuf := []
    writtenSegments := 0
    readSegments := 0 }

/-! ## Handshake -/

/-- The struct `serverHandshaker`, with the fields `conn.go` sets and reads. -/
structure serverHandshaker (EcPriv EcPub : Type) where
  rand : List Nat
  id : Bytes
  priv : Option EcPriv
  sessionVerifier : SessionVerifier EcPub
  sessionKey : Bytes

/-- The struct `clientHandshaker`, with the fields `conn.go` sets and reads. -/
structure clientHandshaker (EcPriv EcPub : Type) where
  rand : List Nat
  id : Bytes
  priv : Option EcPriv
  encryptionPriv : Option EcPriv
  serverPub : Option EcPub
  serverID : Bytes
  tunnelPub : Option EcPub
  tunnelID : Bytes
  sessionKey : Bytes

/-- What `conn.go` uses of the handshake code and of the key conversions, none of
which it defines: the three handshaker methods (each returns the handshaker's new
state next to its Go results), the fields `request.ID` and
`response.encryptionPublicKey`, `(*signcryption.PrivateKey).ToECDSA` and
`signcryption.PublicKeyFromECDSA`. `Req` and `Resp` are the structs behind
`*handshakeRequest` and `*handshakeResponse`. -/
structure Handshakers (EcPriv EcPub SPriv SPub Req Resp : Type) where
  generateRequest : clientHandshaker EcPriv EcPub → Option Req × clientHandshaker EcPriv EcPub
  processServerResponse : clientHandshaker EcPriv EcPub → Option Resp →
    (Bool × Option Err) × clientHandshaker EcPriv EcPub
  processRequest : serverHandshaker EcPriv EcPub → Option Req →
    (Option Resp × Bool × Option Err) × serverHandshaker EcPriv EcPub
  requestID : Req → Bytes
  encryptionPublicKey : Resp → Option EcPub
  ToECDSA : Option SPriv → Option EcPriv
  PublicKeyFromECDSA : Option EcPub → Bytes → Option SPub

/-- The serializer at the two handshake message types: `msgpack.Marshal` and
`msgpack.Unmarshal` into a `*handshakeRequest` or a `*handshakeResponse`. -/
structure HandshakeCodec (Req Resp : Type) where
  MarshalRequest : Option Req → Except Err Bytes
  UnmarshalRequest : Bytes → Except Err (Option Req)
  MarshalResponse : Option Resp → Except Err Bytes
  UnmarshalResponse : Bytes → Except Err (Option Resp)

/-- The literal `&serverHandshaker{...}` built by `handshakeAsServer`; `rand` stands
for `rand.Reader`. -/
def newServerHandshaker (rand : List Nat) (cfg : ServerConfig EcPriv EcPub SPriv) :
    serverHandshaker EcPriv EcPub :=
  { rand := rand
    id := cfg.ID
    priv := cfg.SignaturePrivateKey
    sessionVerifier := cfg.SessionVerifier
    sessionKey := [] }

/-- The literal `&clientHandshaker{...}` built by `handshakeAsClient`. -/
def newClientHandshaker (h : Handshakers EcPriv EcPub SPriv SPub Req Resp) (rand : List Nat)
    (cfg : ClientConfig EcPriv EcPub SPriv SPub) : clientHandshaker EcPriv EcPub :=
  { rand := rand
    id := cfg.ClientID
    priv := cfg.HandshakePrivateKey
    encryptionPriv := h.ToECDSA cfg.EncryptionPrivateKey
    serverPub := cfg.ServerHandshakePublicKey
    serverID := cfg.ServerID
    tunnelPub := cfg.TunnelEncryptionPublicKey
    tunnelID := cfg.TunnelID
    sessionKey := [] }

/-- The method `Conn.handshakeAsServer` of `conn.go`. A request longer than the stream
can deliver makes the read fail. -/
def Conn.handshakeAsServer (h : Handshakers EcPriv EcPub SPriv SPub Req Resp)
    (mp : HandshakeCodec Req Resp) (rand : List Nat) (c : StlConn EcPriv EcPub SPriv SPub) :
    Option Err × StlConn EcPriv EcPub SPriv SPub :=
  match c.conn.ReadFull 8 with
  | (.error err, conn1) =>
    (some (.wrap "error reading handshake request size" err), { c with conn := conn1 })
  | (.ok requestSizeBytes, conn1) =>
    let requestSize := Uint64 requestSizeBytes
    match conn1.ReadFull requestSize with
    | (.error err, conn2) =>
      (some (.wrap "error reading handshake request bytes" err), { c with conn := conn2 })
    | (.ok requestBytes, conn2) =>
      let c2 := { c with conn := conn2 }
      match mp.UnmarshalRequest requestBytes with
      | .error err => (some (.wrap "error unmarshaling handshake request" err), c2)
      | .ok request =>
        match c2.serverConfig with
        | none => (some panicNil, c2)
        | some cfg =>
          match h.processRequest (newServerHandshaker rand cfg) request with
          | ((_, _, some err), _) =>
            (some (.wrap "error processing handshake request" err), c2)
          | ((response, valid, none), handshaker) =>
            if !valid then (some (.new "error: handshake request is not valid"), c2)
            else
              match mp.MarshalResponse response with
              | .error err => (some (.wrap "error marshaling handshake response" err), c2)
              | .ok responseBytes =>
                let numResponseBytes := responseBytes.length
                let responseBuf := PutUint64 numResponseBytes ++ responseBytes
                match c2.conn.Copy responseBuf with
                | (some err, conn3) =>
                  (some (.wrap "error writing handshake response" err), { c2 with conn := conn3 })
                | (none, conn3) =>
                  match response, request with
                  | some resp, some req =>
                    (none, { c2 with
                      conn := conn3
                      publicKey := h.PublicKeyFromECDSA (h.encryptionPublicKey resp) (h.requestID req)
                      sessionKey := handshaker.sessionKey })
                  | _, _ => (some panicNil, { c2 with conn := conn3 })

/-- The method `Conn.handshakeAsClient` of `conn.go`. -/
def Conn.handshakeAsClient (h : Handshakers EcPriv EcPub SPriv SPub Req Resp)
    (mp : HandshakeCodec Req Resp) (rand : List Nat) (c : StlConn EcPriv EcPub SPriv SPub) :
    Option Err × StlConn EcPriv EcPub SPriv SPub :=
  match c.clientConfig with
  | none => (some panicNil, c)
  | some cfg =>
    let (request, handshaker) := h.generateRequest (newClientHandshaker h rand cfg)
    match mp.MarshalRequest request with
    | .error err => (some (.wrap "error marshaling client handshake request" err), c)
    | .ok requestBytes =>
      let numRequestBytes := requestBytes.length
      let handshakeBuf := PutUint64 numRequestBytes ++ requestBytes
      match c.conn.Copy handshakeBuf with
      | (some err, conn1) =>
        (some (.wrap "error writing client handshake request bytes to conn" err),
          { c with conn := conn1 })
      | (none, conn1) =>
        match conn1.ReadFull 8 with
        | (.error err, conn2) =>
          (some (.wrap "error reading handshake response size" err), { c with conn := conn2 })
        | (.ok responseSizeBytes, conn2) =>
          let responseSize := Uint64 responseSizeBytes
          match conn2.ReadFull responseSize with
          | (.error err, conn3) =>
            (some (.wrap "error reading handshake response bytes" err), { c with conn := conn3 })
          | (.ok responseBytes, conn3) =>
            let c3 := { c with conn := conn3 }
            match mp.UnmarshalResponse responseBytes with
            | .error err => (some (.wrap "error unmarshaling handshake response" err), c3)
            | .ok response =>
              match h.processServerResponse handshaker response with
              | ((_, some err), _) =>
                (some (.wrap "error processing server handshake response" err), c3)
              | ((valid, none), handshaker1) =>
                if !valid then (some (.new "error: invalid server response"), c3)
                else (none, { c3 with sessionKey := handshaker1.sessionKey })

/-- The method `Conn.Handshake` of `conn.go`. -/
def Conn.Handshake (h : Handshakers EcPriv EcPub SPriv SPub Req Resp)
    (mp : HandshakeCodec Req Resp) (rand : List Nat) (c : StlConn EcPriv EcPub SPriv SPub) :
    Option Err × StlConn EcPriv EcPub SPriv SPub :=
  if c.sessionKey.length ≠ 0 then (none, c)
  else if c.clientConfig.isSome then c.handshakeAsClient h mp rand
  else c.handshakeAsServer h mp rand

end Handshake

/-! ## The handshakers, which the sources at hand only call -/

section SpecHandshake

variable {EcPriv EcPub SPriv SPub : Type}

/-- Modelled from the spec: the key-agreement and signature primitives used by the
handshakers, whose code (`clientHandshaker`, `serverHandshaker` and their methods) is
missing. `pub` derives a public key, `generate` makes a fresh private key from a
random value, `agree` is the key agreement that yields the session key, and
`sign`/`verify` bind a response to the server identity and the response key. -/
structure KeyAgreement (EcPriv EcPub : Type) where
  pub : EcPriv → EcPub
  generate : Nat → EcPriv
  agree : EcPriv → EcPub → Bytes
  sign : EcPriv → Bytes → EcPub → Bytes
  verify : EcPub → Bytes → EcPub → Bytes → Bool

/-- Modelled from the spec: the struct `handshakeRequest`, missing from the sources.
It binds the client identity, the client handshake public key and the tunnel binding
fields. `EncryptionPublicKey` carries the client's long-term encryption key, which
`conn.go` reads back from the response on the server. -/
structure handshakeRequest (EcPub : Type) where
  ID : Bytes
  HandshakePublicKey : Option EcPub
  TunnelID : Bytes
  TunnelPublicKey : Option EcPub
  EncryptionPublicKey : Option EcPub

/-- Modelled from the spec: the struct `handshakeResponse`, missing from the sources.
It is bound to the server's identity and to the fresh response key by a signature.
The unexported field `encryptionPublicKey` is the one `conn.go` reads; the serializer
does not transmit unexported fields. -/
structure handshakeResponse (EcPub : Type) where
  ID : Bytes
  ResponsePublicKey : Option EcPub
  Signature : Bytes
  encryptionPublicKey : Option EcPub

/-- What the serializer transmits of a response: the exported fields. -/
def handshakeResponse.exported (r : handshakeResponse EcPub) : handshakeResponse EcPub :=
  { r with encryptionPublicKey := none }

/-- Modelled from the spec: the method `clientHandshaker.generateRequest`, missing
from the sources. It builds one request binding the client identity, the client
handshake public key and the tunnel binding fields. -/
def specGenerateRequest (K : KeyAgreement EcPriv EcPub) (h : clientHandshaker EcPriv EcPub) :
    Option (handshakeRequest EcPub) × clientHandshaker EcPriv EcPub :=
  (some { ID := h.id
          HandshakePublicKey := h.priv.map K.pub
          TunnelID := h.tunnelID
          TunnelPublicKey := h.tunnelPub
          EncryptionPublicKey := h.encryptionPriv.map K.pub }, h)

/-- Modelled from the spec: the method `serverHandshaker.processRequest`, missing from
the sources. It validates the request structurally (the request and its keys are
present), asks the `SessionVerifier` with the client identity, the client handshake
public key, the server's own public key and the tunnel identity and key; on
rejection it returns no response and `valid = false` and derives no session key; on
authorization it generates a fresh response key pair, derives the session key by
key agreement with the client's handshake public key, and returns a response bound
to the server's identity and the response key. -/
def specProcessRequest (K : KeyAgreement EcPriv EcPub) (h : serverHandshaker EcPriv EcPub)
    (request : Option (handshakeRequest EcPub)) :
    (Option (handshakeResponse EcPub) × Bool × Option Err) × serverHandshaker EcPriv EcPub :=
  match request with
  | none => ((none, false, none), h)
  | some req =>
    match req.HandshakePublicKey, req.TunnelPublicKey, h.priv with
    | some clientPub, some _, some priv =>
      match h.sessionVerifier req.ID req.HandshakePublicKey (some (K.pub priv))
          req.TunnelID req.TunnelPublicKey with
      | (_, some err) => ((none, false, some err), h)
      | (false, none) => ((none, false, none), h)
      | (true, none) =>
        let responsePriv := K.generate (h.rand.headD 0)
        let responsePub := K.pub responsePriv
        ((some { ID := h.id
                 ResponsePublicKey := some responsePub
                 Signature := K.sign priv h.id responsePub
                 encryptionPublicKey := req.EncryptionPublicKey }, true, none),
          { h with rand := h.rand.tail, sessionKey := K.agree responsePriv clientPub })
    | _, _, _ => ((none, false, none), h)

/-- Modelled from the spec: the method `clientHandshaker.processServerResponse`,
missing from the sources. It checks the response against the expected server
identity and public key, and derives the session key by key agreement between the
client's handshake private key and the response key; any mismatch gives
`valid = false` and stores no session key. -/
def specProcessServerResponse (K : KeyAgreement EcPriv EcPub)
    (h : clientHandshaker EcPriv EcPub) (response : Option (handshakeResponse EcPub)) :
    (Bool × Option Err) × clientHandshaker EcPriv EcPub :=
  match response, h.priv, h.serverPub with
  | some resp, some priv, some serverPub =>
    match resp.ResponsePublicKey with
    | some responsePub =>
      if resp.ID = h.serverID ∧ K.verify serverPub resp.ID responsePub resp.Signature = true then
        ((true, none), { h with sessionKey := K.agree priv responsePub })
      else ((false, none), h)
    | none => ((false, none), h)
  | _, _, _ => ((false, none), h)

/-- Modelled from the spec: the handshake code missing from the sources, assembled
for `conn.go`. The two key conversions are parameters. -/
def specHandshakers (K : KeyAgreement EcPriv EcPub) (toECDSA : Option SPriv → Option EcPriv)
    (fromECDSA : Option EcPub → Bytes → Option SPub) :
    Handshakers EcPriv EcPub SPriv SPub (handshakeRequest EcPub) (handshakeResponse EcPub) :=
  { generateRequest := specGenerateRequest K
    processServerResponse := specProcessServerResponse K
    processRequest := specProcessRequest K
    requestID := fun req => req.ID
    encryptionPublicKey := fun resp => resp.encryptionPublicKey
    ToECDSA := toECDSA
    PublicKeyFromECDSA := fromECDSA }

end SpecHandshake

end STL

end Signcryption

/-! ## Certificates (`certificate.go`) -/

namespace Signcryption

/-- The parameters of an `elliptic.Curve` that the code reads: `Params().Name`, the
bit size, the field prime `P` and the constant `B` of `y² = x³ - 3x + B`. -/
structure Curve where
  Name : String
  BitSize : Nat
  P : Nat
  B : Nat
  deriving DecidableEq, Repr

/-- Go `elliptic.P256()`. -/
def P256 : Curve :=
  { Name := "P-256"
    BitSize := 256
    P := 0xffffffff00000001000000000000000000000000ffffffffffffffffffffffff
    B := 0x5ac635d8aa3a93e7b3ebbd55769886bc651d06b0cc53b0f63bce3c3e27d2604b }

/-- The variable `StandardCurve` of `certificate.go`. -/
def StandardCurve : Curve := P256

/-- Go `ecdsa.PublicKey`; the coordinates are `*big.Int` of non-negative value. -/
structure PublicKey where
  Curve : Curve
  X : Option Nat
  Y : Option Nat
  deriving DecidableEq, Repr

/-- Go `ecdsa.PrivateKey`, which embeds the public key. -/
structure PrivateKey where
  PublicKey : PublicKey
  D : Option Nat
  deriving DecidableEq, Repr

/-- The struct `Certificate` of `certificate.go`. -/
structure Certificate where
  ID : Bytes
  EncryptionPrivateKey : Option PrivateKey
  EncryptionPublicKey : Option PublicKey
  HandshakePrivateKey : Option PrivateKey
  HandshakePublicKey : Option PublicKey
  deriving DecidableEq, Repr

/-- The struct `marshalCert` of `certificate.go`. -/
structure marshalCert where
  ID : Bytes
  HandshakePublicKey : Bytes
  EncryptionPublicKey : Bytes
  deriving DecidableEq, Repr

/-- The serializer at the type `*marshalCert`. -/
structure CertCodec where
  Marshal : marshalCert → Except Err Bytes
  Unmarshal : Bytes → Except Err (Option marshalCert)

/-- Big-endian bytes of `n` in exactly `k` bytes. -/
def putBE (k n : Nat) : Bytes := (putLE k n).reverse

/-- Value of a big-endian byte string: Go `new(big.Int).SetBytes`. -/
def getBE (b : Bytes) : Nat := getLE b.reverse

/-- Go `Curve.IsOnCurve(x, y)` for a curve with `a = -3`:
`y² mod P = (x³ - 3x + B) mod P`. -/
def IsOnCurve (curve : Curve) (x y : Nat) : Bool :=
  decide ((((x : Int) * x * x - 3 * x + curve.B) % curve.P) = (((y : Int) * y) % curve.P))

/-- Go `elliptic.Marshal(curve, x, y)`: the uncompressed form `04 ‖ X ‖ Y`. It panics
(`none`) on a nil coordinate or one that does not fit the byte length. -/
def ellipticMarshal (curve : Curve) (x y : Option Nat) : Option Bytes :=
  let byteLen := (curve.BitSize + 7) / 8
  match x, y with
  | some x, some y =>
    if x < 256 ^ byteLen ∧ y < 256 ^ byteLen then
      some ((4 : Byte) :: (putBE byteLen x ++ putBE byteLen y))
    else none
  | _, _ => none

/-- Go `elliptic.Unmarshal(curve, data)`: both results are nil unless `data` is the
uncompressed form of a point on the curve. -/
def ellipticUnmarshal (curve : Curve) (data : Bytes) : Option Nat × Option Nat :=
  let byteLen := (curve.BitSize + 7) / 8
  if data.length ≠ 1 + 2 * byteLen then (none, none)
  else if data.head? ≠ some (4 : Byte) then (none, none)
  else
    let x := getBE ((data.drop 1).take byteLen)
    let y := getBE (data.drop (1 + byteLen))
    if x ≥ curve.P ∨ y ≥ curve.P then (none, none)
    else if !IsOnCurve curve x y then (none, none)
    else (some x, some y)

/-- The method `Certificate.Validate`. -/
def Certificate.Validate (c : Certificate) : Option Err :=
  if c.ID.length = 0 then some (.new "error: missing ID field") else none

/-- Go `x.Cmp(y) == 0` on two `*big.Int`; a nil operand panics (`none`). -/
def cmpEq (x y : Option Nat) : Option Bool :=
  match x, y with
  | some x, some y => some (decide (x = y))
  | _, _ => none

/-- One of the two key comparisons of `Certificate.Equal`: curve names, then `X`, then
`Y`, evaluated left to right and cut short by the first `false`. -/
def keyEqual (k k2 : Option PublicKey) : Option Bool :=
  match k, k2 with
  | some k, some k2 =>
    if k.Curve.Name = k2.Curve.Name then
      match cmpEq k.X k2.X with
      | some true => cmpEq k.Y k2.Y
      | r => r
    else some false
  | _, _ => none

/-- The method `Certificate.Equal`: `none` is a panic on a nil pointer. The conjunction
is evaluated left to right, so a `false` stops the evaluation. -/
def Certificate.Equal (c c2 : Certificate) : Option Bool :=
  if c.ID = c2.ID then
    match keyEqual c.EncryptionPublicKey c2.EncryptionPublicKey with
    | some true => keyEqual c.HandshakePublicKey c2.HandshakePublicKey
    | r => r
  else some false

/-- The method `Certificate.Marshal`. -/
def Certificate.Marshal (mp : CertCodec) (c : Certificate) : Except Err Bytes :=
  match c.HandshakePublicKey, c.EncryptionPublicKey with
  | some h, some e =>
    match ellipticMarshal h.Curve h.X h.Y, ellipticMarshal e.Curve e.X e.Y with
    | some hpk, some epk =>
      mp.Marshal { ID := c.ID, HandshakePublicKey := hpk, EncryptionPublicKey := epk }
    | _, _ => .error panicNil
  | _, _ => .error panicNil

/-- The function `UnmarshalCertificate`. -/
def UnmarshalCertificate (mp : CertCodec) (b : Bytes) : Except Err Certificate :=
  match mp.Unmarshal b with
  | .error err => .error (.wrap "error unmarshaling certificate" err)
  | .ok none => .error panicNil
  | .ok (some m) =>
    let (hpkX, hpkY) := ellipticUnmarshal StandardCurve m.HandshakePublicKey
    let (epkX, epkY) := ellipticUnmarshal StandardCurve m.EncryptionPublicKey
    let hpk : PublicKey := { Curve := StandardCurve, X := hpkX, Y := hpkY }
    let epk : PublicKey := { Curve := StandardCurve, X := epkX, Y := epkY }
    .ok { ID := m.ID
          EncryptionPrivateKey := none
          EncryptionPublicKey := some epk
          HandshakePrivateKey := none
          HandshakePublicKey := some hpk }

/-- The function `GenerateCertificate`; `genKey` is Go `ecdsa.GenerateKey`, which
consumes randomness and returns a key pair or an error. -/
def GenerateCertificate (genKey : Curve → List Nat → Except Err PrivateKey × List Nat)
    (rand : List Nat) : Except Err Certificate :=
  match genKey StandardCurve rand with
  | (.error err, _) => .error (.new ("error generating encryption ECDSA key: " ++ err.Error))
  | (.ok h, rand1) =>
    match genKey StandardCurve rand1 with
    | (.error err, _) => .error (.new ("error generating encryption ECDSA key: " ++ err.Error))
    | (.ok e, _) =>
      .ok { ID := []
            HandshakePublicKey := some h.PublicKey
            EncryptionPublicKey := some e.PublicKey
            HandshakePrivateKey := some h
            EncryptionPrivateKey := some e }

end Signcryption

/-! ## Test doubles

Concrete collaborators on which the theorems below are instantiated: an engine that
keeps the plaintext and the additional data side by side, a serializer that marks
where a byte string ends, a small Diffie-Hellman group and a verifier that
authorizes one client. -/

namespace Signcryption

open STL

/-- Encoding of a byte string that marks its end: every byte is preceded by `1` and
the string is closed by `0`. -/
def sampleFrame : Bytes → Bytes
  | [] => [0]
  | b :: bs => 1 :: b :: sampleFrame bs

/-- Reader of `sampleFrame`: the flag tells whether a data byte is expected next. -/
def sampleUnframeAux : Bool → Bytes → Option (Bytes × Bytes)
  | _, [] => none
  | false, t :: bs => if t = 0 then some ([], bs) else sampleUnframeAux true bs
  | true, b :: bs =>
    match sampleUnframeAux false bs with
    | some (p, tl) => some (b :: p, tl)
    | none => none

/-- Inverse of `sampleFrame`: the framed string and what follows it. -/
def sampleUnframe (bs : Bytes) : Option (Bytes × Bytes) := sampleUnframeAux false bs

/-- Engine and segment serializer. The engine output is the pair of the plaintext and
the additional data; it is authentic under exactly that additional data. The
serializer refuses outputs of `2^64` bytes or more. -/
def sampleDeps : Deps Nat Nat (Bytes × Bytes) where
  Signcrypt := fun _ _ _ b additionalData => .ok (b, additionalData)
  Unsigncrypt := fun _ _ additionalData o => .ok (o.1, decide (o.2 = additionalData))
  Marshal := fun o =>
    if (sampleFrame o.1 ++ o.2).length < u64 then .ok (sampleFrame o.1 ++ o.2)
    else .error (.ext "segment too long")
  Unmarshal := fun bs =>
    match sampleUnframe bs with
    | some (p, ad) => .ok (p, ad)
    | none => .error (.ext "malformed segment")

/-- A reliable stream holding `inbound`. -/
def sampleNet (inbound : Bytes) : NetConn :=
  { inbound := inbound, outbound := [], readFaults := [], writeFaults := [], sent := [] }

/-- A connection after a handshake that produced the session key `[9, 9]`, on the
stream `net`. -/
def sampleConn (net : NetConn) : Conn Unit Unit Nat Nat :=
  { conn := net
    clientConfig := none
    serverConfig := none
    sessionKey := [9, 9]
    publicKey := some 1
    privateKey := some 2
    aal := AAL.NewP256 []
    readBuf := []
    writtenSegments := 0
    readSegments := 0 }

/-- A Diffie-Hellman group modulo 23 with generator 5, and a signature that names the
signer's public key. -/
def sampleKA : KeyAgreement Nat Nat where
  pub := fun a => 5 ^ a % 23
  generate := fun rnd => rnd % 22 + 1
  agree := fun a B => [Fin.ofNat (B ^ a % 23)]
  sign := fun k id rp => Fin.ofNat (5 ^ k % 23) :: Fin.ofNat rp :: id
  verify := fun pk id rp sig => decide (sig = Fin.ofNat pk :: Fin.ofNat rp :: id)

/-- Encoding of an optional key that fits a byte. -/
def sampleKey : Option Nat → Bytes
  | none => [0]
  | some k => [1, Fin.ofNat k]

/-- Inverse of `sampleKey`: the key and what follows it. -/
def sampleUnkey : Bytes → Option (Option Nat × Bytes)
  | [] => none
  | t :: bs =>
    if t = 0 then some (none, bs)
    else
      match bs with
      | [] => none
      | k :: rest => some (some k.val, rest)

/-- Serializer of the handshake messages; a response travels without its unexported
field. -/
def sampleHandshakeCodec : HandshakeCodec (handshakeRequest Nat) (handshakeResponse Nat) where
  MarshalRequest := fun r =>
    match r with
    | none => .ok [0]
    | some r => .ok (1 :: (sampleFrame r.ID ++ sampleFrame r.TunnelID ++
        sampleKey r.HandshakePublicKey ++ sampleKey r.TunnelPublicKey ++
        sampleKey r.EncryptionPublicKey))
  UnmarshalRequest := fun bs =>
    match bs with
    | [] => .error (.ext "malformed request")
    | t :: bs =>
      if t = 0 then .ok none
      else
        match sampleUnframe bs with
        | none => .error (.ext "malformed request")
        | some (id, r1) =>
          match sampleUnframe r1 with
          | none => .error (.ext "malformed request")
          | some (tid, r2) =>
            match sampleUnkey r2 with
            | none => .error (.ext "malformed request")
            | some (hpk, r3) =>
              match sampleUnkey r3 with
              | none => .error (.ext "malformed request")
              | some (tpk, r4) =>
                match sampleUnkey r4 with
                | some (epk, []) =>
                  .ok (some { ID := id, HandshakePublicKey := hpk, TunnelID := tid,
                              TunnelPublicKey := tpk, EncryptionPublicKey := epk })
                | _ => .error (.ext "malformed request")
  MarshalResponse := fun r =>
    match r with
    | none => .ok [0]
    | some r => .ok (1 :: (sampleFrame r.ID ++ sampleKey r.ResponsePublicKey ++ r.Signature))
  UnmarshalResponse := fun bs =>
    match bs with
    | [] => .error (.ext "malformed response")
    | t :: bs =>
      if t = 0 then .ok none
      else
        match sampleUnframe bs with
        | none => .error (.ext "malformed response")
        | some (id, r1) =>
          match sampleUnkey r1 with
          | none => .error (.ext "malformed response")
          | some (rpk, sig) =>
            .ok (some { ID := id, ResponsePublicKey := rpk, Signature := sig,
                        encryptionPublicKey := none })

/-- The handshakers over the sample group; signcryption keys are the ECDSA keys. -/
def sampleHandshakers :
    Handshakers Nat Nat Nat Nat (handshakeRequest Nat) (handshakeResponse Nat) :=
  specHandshakers sampleKA (fun k => k) (fun k _ => k)

/-- A verifier that authorizes the client `[0xC1]` on the tunnel `[0x77]`. -/
def sampleVerifier : SessionVerifier Nat :=
  fun clientID _ _ tunnelID _ => (decide (clientID = [0xC1] ∧ tunnelID = [0x77]), none)

/-- A verifier that authorizes nobody. -/
def rejectingVerifier : SessionVerifier Nat :=
  fun _ _ _ _ _ => (false, none)

/-- Client configuration: private handshake key 6, expecting the server `[0x5E]` whose
public key is `5^15 mod 23`. -/
def sampleClientConfig : ClientConfig Nat Nat Nat Nat :=
  { ClientID := [0xC1]
    HandshakePrivateKey := some 6
    EncryptionPrivateKey := some 6
    ServerEncryptionPublicKey := some (5 ^ 15 % 23)
    ServerHandshakePublicKey := some (5 ^ 15 % 23)
    ServerID := [0x5E]
    TunnelEncryptionPublicKey := some 4
    TunnelID := [0x77] }

/-- Server configuration: identity `[0x5E]`, private key 15. -/
def sampleServerConfig (v : SessionVerifier Nat) : ServerConfig Nat Nat Nat :=
  { ID := [0x5E]
    SignaturePrivateKey := some 15
    EncryptionPrivateKey := some 15
    SessionVerifier := v }

/-- The frame the sample client sends: its request behind the 8-byte length. -/
def sampleRequestWire : Bytes :=
  [13, 0, 0, 0, 0, 0, 0, 0, 1, 1, 0xC1, 0, 1, 0x77, 0, 1, 8, 1, 4, 1, 8]

/-- The frame the sample server answers with when its randomness source gives 2. -/
def sampleResponseWire : Bytes :=
  [9, 0, 0, 0, 0, 0, 0, 0, 1, 1, 0x5E, 0, 1, 10, 19, 10, 0x5E]

/-- Serializer of `marshalCert`: the three byte strings one after the other. -/
def sampleCertCodec : CertCodec where
  Marshal := fun m =>
    .ok (sampleFrame m.ID ++ sampleFrame m.HandshakePublicKey ++ m.EncryptionPublicKey)
  Unmarshal := fun bs =>
    match sampleUnframe bs with
    | none => .error (.ext "malformed certificate")
    | some (id, r1) =>
      match sampleUnframe r1 with
      | none => .error (.ext "malformed certificate")
      | some (hpk, epk) =>
        .ok (some { ID := id, HandshakePublicKey := hpk, EncryptionPublicKey := epk })

/-- The base point of P-256. -/
def P256G : PublicKey :=
  { Curve := P256
    X := some 0x6b17d1f2e12c4247f8bce6e563a440f277037d812deb33a0f4a13945d898c296
    Y := some 0x4fe342e2fe1a7f9b8ee7eb4a7c0f9e162bce33576b315ececbb6406837bf51f5 }

/-- A key generator that always draws the private scalar 1, whose public key is the
base point; it fails when the randomness source is exhausted. -/
def sampleGenKey : Curve → List Nat → Except Err PrivateKey × List Nat
  | _, [] => (.error (.ext "EOF"), [])
  | _, _ :: rand => (.ok { PublicKey := P256G, D := some 1 }, rand)

end Signcryption

namespace Signcryption

/-! ## Little-endian encoding -/

theorem putLE_length (k n : Nat) : (putLE k n).length = k := by
  induction k generalizing n with
  | zero => rfl
  | succ k ih => simp [putLE, ih]

theorem getLE_putLE (k n : Nat) : getLE (putLE k n) = n % 256 ^ k := by
  induction k generalizing n with
  | zero => simp [putLE, getLE, Nat.mod_one]
  | succ k ih =>
    have h1 : (Fin.ofNat (n % 256) : Fin 256).val = n % 256 := by
      simp [Fin.ofNat]
    simp only [putLE, getLE, ih, h1]
    rw [pow_succ, Nat.mul_comm (256 ^ k) 256, Nat.mod_mul]

theorem PutUint64_length (v : Nat) : (PutUint64 v).length = 8 := putLE_length 8 v

theorem Uint64_PutUint64_append (v : Nat) (rest : Bytes) :
    Uint64 (PutUint64 v ++ rest) = v % u64 := by
  unfold Uint64
  rw [List.take_left' (PutUint64_length v)]
  exact getLE_putLE 8 v

theorem PutUint64_inj {i j : Nat} (hi : i < u64) (hj : j < u64)
    (h : PutUint64 i = PutUint64 j) : i = j := by
  have := congrArg getLE h
  simp only [PutUint64, getLE_putLE] at this
  have e : (256 : Nat) ^ 8 = u64 := by norm_num [u64]
  rw [e, Nat.mod_eq_of_lt hi, Nat.mod_eq_of_lt hj] at this
  exact this

theorem additionalData_ne (key : Bytes) {i j : Nat} (hi : i < u64) (hj : j < u64)
    (hij : i ≠ j) : key ++ PutUint64 i ≠ key ++ PutUint64 j := by
  intro h
  exact hij (PutUint64_inj hi hj (List.append_cancel_left h))

end Signcryption

namespace Signcryption.STL

section DataPathLemmas

variable {CC SC Priv Pub Out : Type}

/-! ## The stream -/

theorem ReadFull_append (s : NetConn) (a rest : Bytes) (hf : s.readFaults = [])
    (hin : s.inbound = a ++ rest) :
    s.ReadFull a.length = (.ok a, { s with inbound := rest }) := by
  unfold NetConn.ReadFull
  by_cases h0 : a.length = 0
  · have ha : a = [] := List.length_eq_zero.mp h0
    subst ha
    cases s
    simp only [List.nil_append] at hin
    simp [hin]
  · simp only [h0, if_false, hf]
    unfold NetConn.readAvail
    simp [hin, hf]

theorem Copy_ok (s : NetConn) (p : Bytes) (h : (s.Copy p).1 = none) :
    (s.Copy p).2.outbound = s.outbound ++ p ∧ (s.Copy p).2.sent = s.sent ++ [p] ∧
    (s.Copy p).2.inbound = s.inbound ∧ (s.Copy p).2.readFaults = s.readFaults := by
  unfold NetConn.Copy at h ⊢
  split <;> simp_all

theorem Copy_err (s : NetConn) (p : Bytes) (e : Err) (h : (s.Copy p).1 = some e) :
    (s.Copy p).2.sent = s.sent ∧
    (s.Copy p).2.inbound = s.inbound ∧ (s.Copy p).2.readFaults = s.readFaults := by
  unfold NetConn.Copy at h ⊢
  split <;> simp_all

theorem Copy_reliable (s : NetConn) (p : Bytes) (h : s.writeFaults = []) :
    s.Copy p = (none, { s with outbound := s.outbound ++ p, sent := s.sent ++ [p] }) := by
  unfold NetConn.Copy
  simp [h]

/-! ## `writeSegment` -/

/-- What every `writeSegment` call does, whether it fails or not: one `Signcrypt`
call under `sessionKey ‖ le64(writtenSegments)` is recorded, and nothing but the
stream, the engine handle and the write counter can change. -/
theorem writeSegment_frame (d : Deps Priv Pub Out) (c : Conn CC SC Priv Pub) (b : Bytes) :
    let c' := (c.writeSegment d b).2
    c'.sessionKey = c.sessionKey ∧ c'.publicKey = c.publicKey ∧ c'.privateKey = c.privateKey ∧
    c'.readBuf = c.readBuf ∧ c'.readSegments = c.readSegments ∧
    c'.aal.signcrypted = c.aal.signcrypted ++ [(b, c.sessionKey ++ PutUint64 c.writtenSegments)] ∧
    c'.aal.unsigncrypted = c.aal.unsigncrypted ∧
    c'.conn.inbound = c.conn.inbound ∧ c'.conn.readFaults = c.conn.readFaults := by
  unfold Conn.writeSegment AAL.Signcrypt
  simp only []
  split
  · simp
  · split
    · simp
    · split
      · rename_i err conn1 hc
        have := Copy_err _ _ err (by rw [hc])
        rw [hc] at this
        simp_all
      · rename_i conn1 hc
        have := Copy_ok c.conn _ (by rw [hc])
        rw [hc] at this
        simp_all

theorem writeSegment_ok (d : Deps Priv Pub Out) (c : Conn CC SC Priv Pub) (b : Bytes)
    (h : (c.writeSegment d b).1 = none) :
    ∃ o m, d.Signcrypt (c.aal.entropy.headD 0) c.privateKey c.publicKey b
        (c.sessionKey ++ PutUint64 c.writtenSegments) = .ok o ∧
      d.Marshal o = .ok m ∧
      (c.writeSegment d b).2.conn.outbound = c.conn.outbound ++ (PutUint64 m.length ++ m) ∧
      (c.writeSegment d b).2.conn.sent = c.conn.sent ++ [PutUint64 m.length ++ m] ∧
      (c.writeSegment d b).2.writtenSegments = (c.writtenSegments + 1) % u64 := by
  unfold Conn.writeSegment AAL.Signcrypt at h ⊢
  simp only [] at h ⊢
  split at h
  · simp at h
  · rename_i o ho
    split at h
    · simp at h
    · rename_i m hm
      split at h
      · simp at h
      · rename_i conn1 hc
        have := Copy_ok c.conn _ (by rw [hc])
        rw [hc] at this
        simp only [] at this
        exact ⟨o, m, ho, hm, this.1, this.2.1, rfl⟩

theorem writeSegment_err (d : Deps Priv Pub Out) (c : Conn CC SC Priv Pub) (b : Bytes)
    (e : Err) (h : (c.writeSegment d b).1 = some e) :
    (c.writeSegment d b).2.writtenSegments = c.writtenSegments ∧
    (c.writeSegment d b).2.conn.sent = c.conn.sent := by
  unfold Conn.writeSegment AAL.Signcrypt at h ⊢
  simp only [] at h ⊢
  split at h
  · simp
  · split at h
    · simp
    · split at h
      · rename_i err conn1 hc
        have := Copy_err _ _ err (by rw [hc])
        rw [hc] at this
        simp only [] at this
        exact ⟨rfl, this.1⟩
      · simp at h

end DataPathLemmas

end Signcryption.STL

namespace Signcryption.STL

section SegmentationLemmas

variable {CC SC Priv Pub Out : Type}

/-! ## The specification's segmentation -/

theorem range_map_succ (f : Nat → Bytes) (n : Nat) :
    (List.range (n + 1)).map f = f 0 :: (List.range n).map (fun i => f (i + 1)) := by
  rw [List.range_succ_eq_map, List.map_cons, List.map_map]
  rfl

theorem ceil_div_step (k L : Nat) (hk : 0 < k) (hL : 0 < L) :
    (L + k - 1) / k = (L - k + k - 1) / k + 1 := by
  by_cases h : k ≤ L
  · have e : L + k - 1 = (L - k + k - 1) + k := by omega
    rw [e, Nat.add_div_right _ hk]
  · have e1 : (L - k + k - 1) / k = 0 := Nat.div_eq_of_lt (by omega)
    have e2 : L + k - 1 = (L - 1) + k := by omega
    rw [e1, e2, Nat.add_div_right _ hk, Nat.div_eq_of_lt (by omega)]

theorem segments_step (k : Nat) (hk : 0 < k) (b : Bytes) (hb : 0 < b.length) :
    (List.range ((b.length + k - 1) / k)).map
        (fun i => (b.drop (i * k)).take (min ((i + 1) * k) b.length - i * k))
      = b.take k :: (List.range (((b.drop k).length + k - 1) / k)).map
        (fun i => ((b.drop k).drop (i * k)).take
          (min ((i + 1) * k) (b.drop k).length - i * k)) := by
  rw [ceil_div_step k b.length hk hb, ← List.length_drop, range_map_succ]
  refine List.cons_eq_cons.mpr ⟨?_, List.map_congr_left ?_⟩
  · rw [Nat.zero_mul, Nat.zero_add, Nat.one_mul, List.drop_zero, Nat.sub_zero]
    exact List.take_eq_take.mpr (by simp [Nat.min_assoc])
  · intro i _
    have e1 : k + i * k = (i + 1) * k := by ring
    have e2 : min ((i + 1 + 1) * k) b.length - (i + 1) * k
        = min ((i + 1) * k) (b.length - k) - i * k := by
      have e3 : (i + 1 + 1) * k = i * k + k + k := by ring
      have e4 : (i + 1) * k = i * k + k := by ring
      rw [e3, e4]
      generalize i * k = q
      simp only [Nat.min_def]
      split_ifs <;> omega
    rw [List.drop_drop, List.length_drop, e1, e2]

theorem specSegments_nil : specSegments [] = [] := by
  have h : (([] : Bytes).length + maxPlaintext - 1) / maxPlaintext = 0 := by
    simp [maxPlaintext]
  rw [specSegments, h]
  simp

theorem specSegments_cons (b : Bytes) (hb : b ≠ []) :
    specSegments b = b.take maxPlaintext :: specSegments (b.drop maxPlaintext) :=
  segments_step maxPlaintext (by decide) b (List.length_pos.mpr hb)

end SegmentationLemmas

end Signcryption.STL

namespace Signcryption.STL

section WriteLemmas

variable {CC SC Priv Pub Out : Type}

/-! ## `Write` writes the specification's segments one after the other -/

theorem writeLoop_eq (d : Deps Priv Pub Out) (b : Bytes) (fuel : Nat) :
    ∀ (i written : Nat) (c : Conn CC SC Priv Pub),
      b.length ≤ fuel + written →
      ((i = written ∧ written ≤ b.length) ∨ (written = b.length ∧ b.length ≤ i)) →
      Conn.writeLoop d b fuel i written c =
        (written + (c.writeSegments d (specSegments (b.drop written))).1,
          (c.writeSegments d (specSegments (b.drop written))).2.1,
          (c.writeSegments d (specSegments (b.drop written))).2.2) := by
  induction fuel with
  | zero =>
    intro i written c hf hinv
    have hw : written = b.length := by omega
    subst hw
    simp [Conn.writeLoop, List.drop_length, specSegments_nil, Conn.writeSegments]
  | succ fuel ih =>
    intro i written c hf hinv
    unfold Conn.writeLoop
    by_cases hi : i < b.length
    · have hiw : i = written := by omega
      subst hiw
      have hk : 0 < maxPlaintext := by decide
      have hne : b.drop i ≠ [] := by
        intro h
        have := congrArg List.length h
        simp at this
        omega
      have htake : (b.drop i).take (if b.length - i > maxPlaintext then maxPlaintext
          else b.length - i) = (b.drop i).take maxPlaintext := by
        split_ifs with h
        · rfl
        · exact List.take_eq_take.mpr (by simp [List.length_drop]; omega)
      have hlen : ((b.drop i).take maxPlaintext).length
          = (if b.length - i > maxPlaintext then maxPlaintext else b.length - i) := by
        simp only [List.length_take, List.length_drop]
        split_ifs with h <;> omega
      have hdrop : specSegments (b.drop (i + (if b.length - i > maxPlaintext then maxPlaintext
          else b.length - i))) = specSegments ((b.drop i).drop maxPlaintext) := by
        rw [List.drop_drop]
        split_ifs with h
        · rfl
        · have h1 : b.drop (i + (b.length - i)) = [] := List.drop_eq_nil_of_le (by omega)
          have h2 : b.drop (i + maxPlaintext) = [] := List.drop_eq_nil_of_le (by omega)
          rw [h1, h2]
      simp only [hi, if_true, htake]
      rw [specSegments_cons _ hne, Conn.writeSegments]
      cases hws : c.writeSegment d ((b.drop i).take maxPlaintext) with
      | mk e c1 =>
        cases e with
        | some err => simp
        | none =>
          simp only []
          rw [ih _ _ c1 (by split_ifs <;> omega) (by split_ifs <;> omega), hdrop, hlen]
          simp [Nat.add_assoc]
    · have hw : written = b.length := by omega
      subst hw
      simp [hi, List.drop_length, specSegments_nil, Conn.writeSegments]

theorem Write_eq (d : Deps Priv Pub Out) (c : Conn CC SC Priv Pub) (b : Bytes) :
    c.Write d b = ((c.writeSegments d (specSegments b)).1,
      (c.writeSegments d (specSegments b)).2.1, (c.writeSegments d (specSegments b)).2.2) := by
  unfold Conn.Write
  rw [writeLoop_eq d b b.length 0 0 c (by omega) (Or.inl ⟨rfl, Nat.zero_le _⟩)]
  simp

end WriteLemmas

end Signcryption.STL

namespace Signcryption

theorem putLE_mod (k n : Nat) : putLE k (n % 256 ^ k) = putLE k n := by
  induction k generalizing n with
  | zero => rfl
  | succ k ih =>
    have e1 : n % 256 ^ (k + 1) % 256 = n % 256 :=
      Nat.mod_mod_of_dvd n (Dvd.intro_left (256 ^ k) rfl)
    have e2 : n % 256 ^ (k + 1) / 256 = n / 256 % 256 ^ k := by
      rw [pow_succ, Nat.mul_comm (256 ^ k) 256, Nat.mod_mul_right_div_self]
    simp only [putLE, e1, e2, ih]

theorem PutUint64_mod (n : Nat) : PutUint64 (n % u64) = PutUint64 n := by
  have e : u64 = 256 ^ 8 := by norm_num [u64]
  rw [e]
  exact putLE_mod 8 n

end Signcryption

namespace Signcryption.STL

section EmitLemmas

variable {CC SC Priv Pub Out : Type}

theorem u64_step (a n : Nat) : ((a + 1) % u64 + n) % u64 = (a + (n + 1)) % u64 := by
  simp only [u64]
  omega

theorem Frames_length {d : Deps Priv Pub Out} {key : Bytes} {priv : Option Priv}
    {pub : Option Pub} {ctr : Nat} {segs frames : List Bytes}
    (h : Frames d key priv pub ctr segs frames) : frames.length = segs.length := by
  induction h with
  | nil => rfl
  | cons _ _ _ _ _ _ _ _ _ _ ih => simp [ih]

theorem Frames_append {d : Deps Priv Pub Out} {key : Bytes} {priv : Option Priv}
    {pub : Option Pub} {ctr : Nat} {s1 f1 s2 f2 : List Bytes}
    (h1 : Frames d key priv pub ctr s1 f1)
    (h2 : Frames d key priv pub ((ctr + f1.length) % u64) s2 f2) :
    Frames d key priv pub ctr (s1 ++ s2) (f1 ++ f2) := by
  induction h1 with
  | nil ctr =>
    cases h2 with
    | nil => exact Frames.nil _
    | cons _ rnd seg segs o m frames hs hm hf =>
      simp only [List.length_nil, Nat.add_zero, List.nil_append] at *
      rw [PutUint64_mod] at hs
      refine Frames.cons _ rnd seg segs o m frames hs hm ?_
      have e : (ctr % u64 + 1) % u64 = (ctr + 1) % u64 := by
        simp only [u64]
        omega
      rw [← e]
      exact hf
  | cons ctr rnd seg segs o m frames hs hm _ ih =>
    refine Frames.cons ctr rnd seg _ o m _ hs hm (ih ?_)
    rw [u64_step]
    simpa using h2

theorem Frames_get {d : Deps Priv Pub Out} {key : Bytes} {priv : Option Priv}
    {pub : Option Pub} {ctr : Nat} {segs frames : List Bytes}
    (h : Frames d key priv pub ctr segs frames) :
    ∀ (i : Nat) (hi : i < frames.length) (hs : i < segs.length),
      ∃ rnd o m, d.Signcrypt rnd priv pub segs[i] (key ++ PutUint64 (ctr + i)) = .ok o ∧
        d.Marshal o = .ok m ∧ frames[i] = PutUint64 m.length ++ m := by
  induction h with
  | nil => intro i hi; simp at hi
  | cons ctr rnd seg segs o m frames hs hm _ ih =>
    intro i hi hsl
    cases i with
    | zero => exact ⟨rnd, o, m, by simpa using hs, hm, rfl⟩
    | succ i =>
      obtain ⟨rnd', o', m', h1, h2, h3⟩ := ih i (by simpa using hi) (by simpa using hsl)
      refine ⟨rnd', o', m', ?_, h2, by simpa using h3⟩
      have e : PutUint64 ((ctr + 1) % u64 + i) = PutUint64 (ctr + (i + 1)) := by
        rw [← PutUint64_mod, u64_step, PutUint64_mod]
      simpa [e] using h1

theorem Emits_refl (d : Deps Priv Pub Out) (c : Conn CC SC Priv Pub)
    (hc : c.writtenSegments < u64) : Emits d c c [] [] :=
  ⟨rfl, rfl, rfl, Frames.nil _, by simp, by simp [Nat.mod_eq_of_lt hc]⟩

theorem Emits_trans {d : Deps Priv Pub Out} {c c1 c2 : Conn CC SC Priv Pub}
    {s1 f1 s2 f2 : List Bytes} (h1 : Emits d c c1 s1 f1) (h2 : Emits d c1 c2 s2 f2) :
    Emits d c c2 (s1 ++ s2) (f1 ++ f2) := by
  obtain ⟨k1, p1, q1, fr1, st1, w1⟩ := h1
  obtain ⟨k2, p2, q2, fr2, st2, w2⟩ := h2
  refine ⟨k2.trans k1, p2.trans p1, q2.trans q1, ?_, ?_, ?_⟩
  · rw [k1, p1, q1, w1] at fr2
    exact Frames_append fr1 fr2
  · rw [st2, st1, List.append_assoc]
  · rw [w2, w1, List.length_append]
    simp only [u64]
    omega

theorem writeSegment_emits (d : Deps Priv Pub Out) (c : Conn CC SC Priv Pub) (b : Bytes)
    (hc : c.writtenSegments < u64) :
    (∃ e, (c.writeSegment d b).1 = some e ∧ Emits d c (c.writeSegment d b).2 [] []) ∨
    (∃ frame, (c.writeSegment d b).1 = none ∧ Emits d c (c.writeSegment d b).2 [b] [frame] ∧
      (c.writeSegment d b).2.conn.outbound = c.conn.outbound ++ frame) := by
  have hfr := writeSegment_frame d c b
  simp only [] at hfr
  obtain ⟨k, p, q, _, _, _, _, _, _⟩ := hfr
  cases h : (c.writeSegment d b).1 with
  | some e =>
    left
    obtain ⟨w, st⟩ := writeSegment_err d c b e h
    exact ⟨e, rfl, k, p, q, Frames.nil _, by simp [st], by simp [w, Nat.mod_eq_of_lt hc]⟩
  | none =>
    right
    obtain ⟨o, m, hs, hm, ho, hst, hw⟩ := writeSegment_ok d c b h
    exact ⟨PutUint64 m.length ++ m, rfl,
      ⟨k, p, q, Frames.cons _ _ _ _ o m _ hs hm (Frames.nil _), hst, by simp [hw]⟩, ho⟩

theorem writeSegments_emits (d : Deps Priv Pub Out) (segs : List Bytes) :
    ∀ (c : Conn CC SC Priv Pub), c.writtenSegments < u64 →
      ∃ done frames, Emits d c (c.writeSegments d segs).2.2 done frames ∧
        done.length ≤ segs.length ∧
        ((c.writeSegments d segs).2.1 = none →
          done = segs ∧ (c.writeSegments d segs).1 = segs.flatten.length ∧
          (c.writeSegments d segs).2.2.conn.outbound = c.conn.outbound ++ frames.flatten) := by
  induction segs with
  | nil =>
    intro c hc
    exact ⟨[], [], Emits_refl d c hc, by simp, by simp [Conn.writeSegments]⟩
  | cons seg segs ih =>
    intro c hc
    rcases writeSegment_emits d c seg hc with ⟨e, he, hem⟩ | ⟨frame, hn, hem, hout⟩
    · refine ⟨[], [], ?_, by simp, ?_⟩
      · unfold Conn.writeSegments
        cases hws : c.writeSegment d seg with
        | mk r c1 =>
          rw [hws] at he hem
          simp only [] at he
          subst he
          exact hem
      · unfold Conn.writeSegments
        cases hws : c.writeSegment d seg with
        | mk r c1 =>
          rw [hws] at he
          simp only [] at he
          subst he
          simp
    · have hc1 : (c.writeSegment d seg).2.writtenSegments < u64 := by
        rw [hem.2.2.2.2.2]
        exact Nat.mod_lt _ (by simp [u64])
      obtain ⟨done, frames, hem2, hlen, hok⟩ := ih (c.writeSegment d seg).2 hc1
      have hunf : c.writeSegments d (seg :: segs) =
          (seg.length + ((c.writeSegment d seg).2.writeSegments d segs).1,
            ((c.writeSegment d seg).2.writeSegments d segs).2.1,
            ((c.writeSegment d seg).2.writeSegments d segs).2.2) := by
        rw [Conn.writeSegments]
        cases hws : c.writeSegment d seg with
        | mk r c1 =>
          rw [hws] at hn
          simp only [] at hn
          subst hn
          rfl
      rw [hunf]
      refine ⟨[seg] ++ done, [frame] ++ frames, Emits_trans hem hem2, by simp; omega, ?_⟩
      intro h
      obtain ⟨h1, h2, h3⟩ := hok h
      refine ⟨by simp [h1], ?_, ?_⟩
      · simp [h2]
      · simp only []
        rw [h3, hout]
        simp

theorem Write_emits (d : Deps Priv Pub Out) (c : Conn CC SC Priv Pub) (b : Bytes)
    (hc : c.writtenSegments < u64) :
    ∃ done frames, Emits d c (c.Write d b).2.2 done frames ∧
      done.length ≤ (specSegments b).length ∧
      ((c.Write d b).2.1 = none →
        done = specSegments b ∧ (c.Write d b).1 = (specSegments b).flatten.length ∧
        (c.Write d b).2.2.conn.outbound = c.conn.outbound ++ frames.flatten) := by
  rw [Write_eq]
  exact writeSegments_emits d (specSegments b) c hc

theorem Emits_counter_lt {d : Deps Priv Pub Out} {c c' : Conn CC SC Priv Pub}
    {segs frames : List Bytes} (h : Emits d c c' segs frames) : c'.writtenSegments < u64 := by
  rw [h.2.2.2.2.2]
  exact Nat.mod_lt _ (by simp [u64])

theorem Writes_emits (d : Deps Priv Pub Out) (bs : List Bytes) :
    ∀ (c : Conn CC SC Priv Pub), c.writtenSegments < u64 →
      ∃ done frames, Emits d c (c.Writes d bs).2 done frames ∧
        done.length ≤ (bs.map fun b => (specSegments b).length).sum := by
  induction bs with
  | nil =>
    intro c hc
    exact ⟨[], [], Emits_refl d c hc, by simp⟩
  | cons b bs ih =>
    intro c hc
    obtain ⟨d1, f1, h1, l1, _⟩ := Write_emits d c b hc
    obtain ⟨d2, f2, h2, l2⟩ := ih (c.Write d b).2.2 (Emits_counter_lt h1)
    refine ⟨d1 ++ d2, f1 ++ f2, ?_, by simp; omega⟩
    have : (c.Writes d (b :: bs)).2 = ((c.Write d b).2.2.Writes d bs).2 := by
      simp [Conn.Writes]
    rw [this]
    exact Emits_trans h1 h2

end EmitLemmas

end Signcryption.STL

namespace Signcryption.STL

section ReadLemmas

variable {CC SC Priv Pub Out : Type}

/-! ## `readSegment` and `Read` -/

/-- The stream after a well-formed frame has been read off its front. -/
theorem readSegment_on_frame (d : Deps Priv Pub Out) (c : Conn CC SC Priv Pub)
    (m rest : Bytes) (o : Out) (hf : c.conn.readFaults = [])
    (hin : c.conn.inbound = PutUint64 m.length ++ m ++ rest) (hlen : m.length < u64)
    (hu : d.Unmarshal m = .ok o) :
    c.readSegment d =
      (let ad := c.sessionKey ++ PutUint64 c.readSegments
       let r := d.Unsigncrypt c.publicKey c.privateKey ad o
       let c3 : Conn CC SC Priv Pub :=
         { c with conn := { c.conn with inbound := rest },
                  aal := { c.aal with
                    unsigncrypted := c.aal.unsigncrypted ++ [(ad, authentic r)] } }
       match r with
       | .error err => (some (.wrap "error unsigncrypting segment" err), c3)
       | .ok (pt, valid) =>
         if !valid then (some (.new "error: segment is invalid"), c3)
         else (none, { c3 with readBuf := c3.readBuf ++ pt,
                               readSegments := (c3.readSegments + 1) % u64 })) := by
  have h8 : c.conn.ReadFull 8 = (.ok (PutUint64 m.length),
      { c.conn with inbound := m ++ rest }) := by
    have := ReadFull_append c.conn (PutUint64 m.length) (m ++ rest) hf
      (by rw [hin, List.append_assoc])
    rwa [PutUint64_length] at this
  have hval : Uint64 (PutUint64 m.length) = m.length := by
    have := Uint64_PutUint64_append m.length []
    rw [List.append_nil, Nat.mod_eq_of_lt hlen] at this
    exact this
  have hm : ({ c.conn with inbound := m ++ rest } : NetConn).ReadFull m.length
      = (.ok m, { c.conn with inbound := rest }) := by
    have := ReadFull_append ({ c.conn with inbound := m ++ rest } : NetConn) m rest hf rfl
    simpa using this
  unfold Conn.readSegment AAL.Unsigncrypt
  simp only [h8, hval, hm, hu]

theorem ReadFull_frame (s : NetConn) (n : Nat) :
    (s.ReadFull n).2.sent = s.sent ∧ (s.ReadFull n).2.outbound = s.outbound ∧
    (s.ReadFull n).2.writeFaults = s.writeFaults := by
  unfold NetConn.ReadFull NetConn.readAvail
  repeat' split
  all_goals simp

/-- What every `readSegment` call leaves alone. -/
theorem readSegment_frame (d : Deps Priv Pub Out) (c : Conn CC SC Priv Pub) :
    let c' := (c.readSegment d).2
    c'.sessionKey = c.sessionKey ∧ c'.publicKey = c.publicKey ∧ c'.privateKey = c.privateKey ∧
    c'.writtenSegments = c.writtenSegments ∧ c'.aal.signcrypted = c.aal.signcrypted ∧
    c'.conn.sent = c.conn.sent ∧ c'.conn.outbound = c.conn.outbound := by
  unfold Conn.readSegment AAL.Unsigncrypt
  simp only []
  have h1 := ReadFull_frame c.conn 8
  split
  · rename_i err conn1 hc
    rw [hc] at h1
    simp_all
  · rename_i b1 conn1 hc
    rw [hc] at h1
    have h2 := ReadFull_frame conn1 (Uint64 b1)
    split
    · rename_i err conn2 hc2
      rw [hc2] at h2
      simp_all
    · rename_i b2 conn2 hc2
      rw [hc2] at h2
      repeat' split
      all_goals simp_all

theorem readSegment_err (d : Deps Priv Pub Out) (c : Conn CC SC Priv Pub) (e : Err)
    (h : (c.readSegment d).1 = some e) :
    (c.readSegment d).2.readBuf = c.readBuf ∧
    (c.readSegment d).2.readSegments = c.readSegments ∧
    ((c.readSegment d).2.aal.unsigncrypted = c.aal.unsigncrypted ∨
      (c.readSegment d).2.aal.unsigncrypted =
        c.aal.unsigncrypted ++ [(c.sessionKey ++ PutUint64 c.readSegments, false)]) := by
  unfold Conn.readSegment AAL.Unsigncrypt at h ⊢
  simp only [] at h ⊢
  split at h
  · simp
  · split at h
    · simp
    · split at h
      · simp
      · split at h
        · rename_i hr
          simp [hr, authentic]
        · rename_i pt valid hr
          cases valid
          · simp [hr, authentic]
          · simp at h

theorem readSegment_ok (d : Deps Priv Pub Out) (c : Conn CC SC Priv Pub)
    (h : (c.readSegment d).1 = none) :
    (∃ pt, (c.readSegment d).2.readBuf = c.readBuf ++ pt) ∧
    (c.readSegment d).2.readSegments = (c.readSegments + 1) % u64 ∧
    (c.readSegment d).2.aal.unsigncrypted =
      c.aal.unsigncrypted ++ [(c.sessionKey ++ PutUint64 c.readSegments, true)] := by
  unfold Conn.readSegment AAL.Unsigncrypt at h ⊢
  simp only [] at h ⊢
  split at h
  · simp at h
  · split at h
    · simp at h
    · split at h
      · simp at h
      · split at h
        · simp at h
        · rename_i pt valid hr
          cases valid
          · simp at h
          · simp [hr, authentic]

end ReadLemmas

end Signcryption.STL

namespace Signcryption.STL

section RoundTripLemmas

variable {CC SC Priv Pub Out : Type}

/-! ## Reading what a sender wrote -/

theorem drain_nonempty (c : Conn CC SC Priv Pub) (n : Nat) (h : c.readBuf ≠ []) :
    c.drain n = (c.readBuf.take n, none, { c with readBuf := c.readBuf.drop n }) := by
  unfold Conn.drain bufferRead
  have : c.readBuf.length ≠ 0 := fun h0 => h (List.length_eq_zero.mp h0)
  simp [this]

theorem Read_synced (d : Deps Priv Pub Out) (privS : Option Priv) (pubS : Option Pub)
    (r : Conn CC SC Priv Pub) (segs frames : List Bytes) (n : Nat)
    (hEng : ∀ rnd pt ad o, d.Signcrypt rnd privS pubS pt ad = .ok o →
      d.Unsigncrypt r.publicKey r.privateKey ad o = .ok (pt, true))
    (hCodec : ∀ o m, d.Marshal o = .ok m → d.Unmarshal m = .ok o)
    (hLen : ∀ o m, d.Marshal o = .ok m → m.length < u64)
    (hs : Synced d privS pubS r segs frames) (hne : r.readBuf ++ segs.flatten ≠ []) :
    ∃ r' segs' frames' out, r.Read d n = (out, none, r') ∧
      Synced d privS pubS r' segs' frames' ∧
      r'.publicKey = r.publicKey ∧ r'.privateKey = r.privateKey ∧
      out ++ (r'.readBuf ++ segs'.flatten) = r.readBuf ++ segs.flatten ∧
      (0 < n → out ≠ []) := by
  obtain ⟨hf, hfr, hin, hseg⟩ := hs
  by_cases hb : r.readBuf = []
  · -- the queue is empty: one segment is fetched
    cases hfr with
    | nil => simp [hb] at hne
    | cons _ rnd seg segs' o m frames' hS hM hrest =>
      have hsegne : seg ≠ [] := hseg seg (by simp)
      have hrs := readSegment_on_frame d r m frames'.flatten o hf
        (by rw [hin]; simp) (hLen o m hM) (hCodec o m hM)
      simp only [hEng rnd seg _ o hS, Bool.not_true, Bool.false_eq_true, if_false] at hrs
      have hread : r.Read d n = (seg.take n, none,
          { r with conn := { r.conn with inbound := frames'.flatten },
                   aal := { r.aal with unsigncrypted := r.aal.unsigncrypted ++
                     [(r.sessionKey ++ PutUint64 r.readSegments, true)] },
                   readBuf := seg.drop n,
                   readSegments := (r.readSegments + 1) % u64 }) := by
        unfold Conn.Read
        simp only [hb, List.length_nil, if_true, hrs]
        rw [drain_nonempty _ _ (by simpa [hb] using hsegne)]
        simp [hb, authentic]
      refine ⟨_, segs', frames', seg.take n, hread, ⟨hf, hrest, rfl, ?_⟩, rfl, rfl, ?_, ?_⟩
      · intro s hs
        exact hseg s (by simp [hs])
      · simp only [hb, List.nil_append, List.flatten_cons]
        rw [← List.append_assoc, List.take_append_drop]
      · intro hn h0
        rw [List.take_eq_nil_iff] at h0
        rcases h0 with h0 | h0
        · omega
        · exact hsegne h0
  · -- the queue holds bytes: they are served without a fetch
    have hread : r.Read d n = (r.readBuf.take n, none, { r with readBuf := r.readBuf.drop n }) := by
      unfold Conn.Read
      have : r.readBuf.length ≠ 0 := fun h0 => hb (List.length_eq_zero.mp h0)
      simp only [this, if_false]
      exact drain_nonempty r n hb
    refine ⟨_, segs, frames, r.readBuf.take n, hread, ⟨hf, hfr, hin, hseg⟩, rfl, rfl, ?_, ?_⟩
    · simp [← List.append_assoc]
    · intro hn h0
      rw [List.take_eq_nil_iff] at h0
      rcases h0 with h0 | h0
      · omega
      · exact hb h0

theorem readUntil_synced (d : Deps Priv Pub Out) (privS : Option Priv) (pubS : Option Pub)
    (pubR : Option Pub) (privR : Option Priv)
    (hEng : ∀ rnd pt ad o, d.Signcrypt rnd privS pubS pt ad = .ok o →
      d.Unsigncrypt pubR privR ad o = .ok (pt, true))
    (hCodec : ∀ o m, d.Marshal o = .ok m → d.Unmarshal m = .ok o)
    (hLen : ∀ o m, d.Marshal o = .ok m → m.length < u64) (sizes : List Nat) :
    ∀ (r : Conn CC SC Priv Pub) (segs frames : List Bytes) (acc : Bytes) (need : Nat),
      r.publicKey = pubR → r.privateKey = privR →
      Synced d privS pubS r segs frames →
      need = (r.readBuf ++ segs.flatten).length →
      (r.readUntil d sizes need acc).2.1 = none ∧
      (∃ t, (r.readUntil d sizes need acc).1 = acc ++ (r.readBuf ++ segs.flatten).take t) ∧
      ((r.readBuf ++ segs.flatten).length ≤ (sizes.filter (0 < ·)).length →
        (r.readUntil d sizes need acc).1 = acc ++ (r.readBuf ++ segs.flatten)) := by
  induction sizes with
  | nil =>
    intro r segs frames acc need _ _ _ hneed
    have hres : r.readUntil d [] need acc = (acc, none, r) := by
      cases need <;> rfl
    rw [hres]
    refine ⟨rfl, ⟨0, by simp⟩, ?_⟩
    intro h
    have : r.readBuf ++ segs.flatten = [] := List.length_eq_zero.mp (by simpa using h)
    simp [this]
  | cons n ns ih =>
    intro r segs frames acc need hpub hpriv hs hneed
    cases need with
    | zero =>
      have hres : r.readUntil d (n :: ns) 0 acc = (acc, none, r) := rfl
      have : r.readBuf ++ segs.flatten = [] := List.length_eq_zero.mp hneed.symm
      rw [hres, this]
      exact ⟨rfl, ⟨0, by simp⟩, fun _ => by simp⟩
    | succ k =>
      have hne : r.readBuf ++ segs.flatten ≠ [] := by
        intro h
        rw [h] at hneed
        simp at hneed
      obtain ⟨r', segs', frames', out, hread, hs', hp1, hp2, htot, hpos⟩ :=
        Read_synced d privS pubS r segs frames n
          (by rw [hpub, hpriv]; exact hEng) hCodec hLen hs hne
      have hres : r.readUntil d (n :: ns) (k + 1) acc
          = r'.readUntil d ns (k + 1 - out.length) (acc ++ out) := by
        rw [Conn.readUntil, hread]
      have hlen : out.length + (r'.readBuf ++ segs'.flatten).length = k + 1 := by
        rw [hneed, ← htot]
        simp only [List.length_append]
      obtain ⟨i1, ⟨t, i2⟩, i3⟩ := ih r' segs' frames' (acc ++ out) (k + 1 - out.length)
        (hp1.trans hpub) (hp2.trans hpriv) hs' (by omega)
      rw [hres]
      refine ⟨i1, ⟨out.length + t, ?_⟩, ?_⟩
      · rw [i2, ← htot, List.append_assoc, List.take_append]
      · intro hcount
        rw [i3, ← htot, List.append_assoc]
        rw [← htot, List.length_append] at hcount
        by_cases hn : 0 < n
        · have := hpos hn
          have hol : 0 < out.length := List.length_pos.mpr this
          rw [List.filter_cons_of_pos (by simpa using hn), List.length_cons] at hcount
          omega
        · rw [List.filter_cons_of_neg (by simpa using hn)] at hcount
          omega

end RoundTripLemmas

end Signcryption.STL

namespace Signcryption.STL

section SegmentProperties

/-! ## Properties of the specification's segmentation -/

theorem specSegments_length (b : Bytes) :
    (specSegments b).length = (b.length + maxPlaintext - 1) / maxPlaintext := by
  rw [specSegments, List.length_map, List.length_range]

theorem specSegments_getElem (b : Bytes) (i : Nat) (hi : i < (specSegments b).length) :
    (specSegments b)[i] = (b.drop (i * maxPlaintext)).take
      (min ((i + 1) * maxPlaintext) b.length - i * maxPlaintext) := by
  simp only [specSegments, List.getElem_map, List.getElem_range]

theorem specSegments_flatten (b : Bytes) : (specSegments b).flatten = b := by
  generalize hn : b.length = n
  induction n using Nat.strong_induction_on generalizing b with
  | _ n ih =>
    by_cases hb : b = []
    · subst hb
      rw [specSegments_nil]
      rfl
    · have hpos : 0 < b.length := List.length_pos.mpr hb
      have hk : 0 < maxPlaintext := by decide
      rw [specSegments_cons b hb, List.flatten_cons,
        ih (b.drop maxPlaintext).length (by rw [List.length_drop]; omega) _ rfl,
        List.take_append_drop]

theorem specSegments_mem (b : Bytes) :
    ∀ s ∈ specSegments b, s ≠ [] ∧ s.length ≤ maxPlaintext := by
  generalize hn : b.length = n
  induction n using Nat.strong_induction_on generalizing b with
  | _ n ih =>
    by_cases hb : b = []
    · subst hb
      rw [specSegments_nil]
      intro s hs
      simp at hs
    · have hpos : 0 < b.length := List.length_pos.mpr hb
      have hk : 0 < maxPlaintext := by decide
      rw [specSegments_cons b hb]
      intro s hs
      rcases List.mem_cons.mp hs with h | h
      · subst h
        refine ⟨?_, by rw [List.length_take]; exact Nat.min_le_left _ _⟩
        intro h0
        have := congrArg List.length h0
        rw [List.length_take] at this
        simp only [List.length_nil] at this
        omega
      · exact ih (b.drop maxPlaintext).length (by rw [List.length_drop]; omega) _ rfl s h

theorem specSegments_full (b : Bytes) (i : Nat) (hi : i + 1 < (specSegments b).length)
    (h : i < (specSegments b).length) : (specSegments b)[i].length = maxPlaintext := by
  rw [specSegments_getElem, List.length_take, List.length_drop]
  rw [specSegments_length] at hi
  simp only [maxPlaintext] at hi ⊢
  omega

end SegmentProperties

end Signcryption.STL

namespace Signcryption

open STL

/-! ## Facts about the test doubles -/

theorem sampleUnframe_frame (p rest : Bytes) :
    sampleUnframe (sampleFrame p ++ rest) = some (p, rest) := by
  unfold sampleUnframe
  induction p with
  | nil => simp [sampleFrame, sampleUnframeAux]
  | cons b bs ih => simp [sampleFrame, sampleUnframeAux, ih]

theorem sampleDeps_inverse (rnd : Nat) (priv priv' : Option Nat) (pub pub' : Option Nat)
    (pt ad : Bytes) (o : Bytes × Bytes)
    (h : sampleDeps.Signcrypt rnd priv pub pt ad = .ok o) :
    sampleDeps.Unsigncrypt pub' priv' ad o = .ok (pt, true) := by
  simp only [sampleDeps, Except.ok.injEq] at h
  subst h
  simp [sampleDeps]

theorem sampleDeps_codec (o : Bytes × Bytes) (m : Bytes) (h : sampleDeps.Marshal o = .ok m) :
    sampleDeps.Unmarshal m = .ok o := by
  simp only [sampleDeps] at h ⊢
  split at h
  · simp only [Except.ok.injEq] at h
    subst h
    rw [sampleUnframe_frame]
  · simp at h

theorem sampleDeps_length (o : Bytes × Bytes) (m : Bytes) (h : sampleDeps.Marshal o = .ok m) :
    m.length < u64 := by
  simp only [sampleDeps] at h
  split at h
  · simp only [Except.ok.injEq] at h
    subst h
    assumption
  · simp at h

theorem sampleDeps_authentic (rnd : Nat) (priv priv' : Option Nat) (pub pub' : Option Nat)
    (pt ad ad' : Bytes) (o : Bytes × Bytes)
    (h : sampleDeps.Signcrypt rnd priv pub pt ad = .ok o)
    (ha : authentic (sampleDeps.Unsigncrypt pub' priv' ad' o) = true) : ad' = ad := by
  simp only [sampleDeps, Except.ok.injEq] at h
  subst h
  simpa [sampleDeps, authentic, eq_comm] using ha

end Signcryption

namespace Signcryption.STL

section DataPathTheorems

variable {CC SC Priv Pub Out : Type}

/-- C1. Stream round trip. A sender `s` and a receiver `r` hold the same session key,
matching key pairs (what the sender's keys signcrypt, the receiver's keys
unsigncrypt under equal additional data), equal write and read counters, and a
serializer whose inverse undoes it; the stream is reliable and ordered: the
receiver's unread input is exactly what the successful `Write(b)` put on the wire.
Then the `Read` calls of the receiver, repeated until all bytes have been returned,
never fail and return, in order, a leading part of the bytes still queued at the
receiver followed by `b`, whatever the buffer sizes, and all of them as soon as
that many of the buffers are non-empty. With an empty queue, the state of a
receiver that has read all it fetched, this is exactly `b` after `len(b)` bytes, and
no call is made when `b` is empty. -/
theorem stream_round_trip (d : Deps Priv Pub Out) (s r : Conn CC SC Priv Pub) (b : Bytes)
    (sizes : List Nat)
    (hkey : s.sessionKey = r.sessionKey)
    (hctr : s.writtenSegments = r.readSegments)
    (hsc : s.writtenSegments < u64)
    (hEng : ∀ rnd pt ad o, d.Signcrypt rnd s.privateKey s.publicKey pt ad = .ok o →
      d.Unsigncrypt r.publicKey r.privateKey ad o = .ok (pt, true))
    (hCodec : ∀ o m, d.Marshal o = .ok m → d.Unmarshal m = .ok o)
    (hLen : ∀ o m, d.Marshal o = .ok m → m.length < u64)
    (hrel : r.conn.readFaults = [])
    (hW : (s.Write d b).2.1 = none)
    (hwire : (s.Write d b).2.2.conn.outbound = s.conn.outbound ++ r.conn.inbound) :
    (r.readUntil d sizes (r.readBuf ++ b).length []).2.1 = none ∧
    (∃ t, (r.readUntil d sizes (r.readBuf ++ b).length []).1 = (r.readBuf ++ b).take t) ∧
    ((r.readBuf ++ b).length ≤ (sizes.filter (0 < ·)).length →
      (r.readUntil d sizes (r.readBuf ++ b).length []).1 = r.readBuf ++ b) ∧
    (r.readBuf = [] →
      (b.length ≤ (sizes.filter (0 < ·)).length → (r.readUntil d sizes b.length []).1 = b) ∧
      (b = [] → r.readUntil d sizes b.length [] = ([], none, r))) := by
  obtain ⟨done, frames, hem, _, hok⟩ := Write_emits d s b hsc
  obtain ⟨hdone, _, hout⟩ := hok hW
  subst hdone
  have hin : r.conn.inbound = frames.flatten :=
    (List.append_cancel_left (hwire.symm.trans hout))
  have hsync : Synced d s.privateKey s.publicKey r (specSegments b) frames := by
    refine ⟨hrel, ?_, hin, fun x hx => (specSegments_mem b x hx).1⟩
    rw [← hkey, ← hctr]
    exact hem.2.2.2.1
  have htot : r.readBuf ++ (specSegments b).flatten = r.readBuf ++ b := by
    rw [specSegments_flatten]
  have := readUntil_synced d s.privateKey s.publicKey r.publicKey r.privateKey hEng hCodec hLen
    sizes r (specSegments b) frames [] (r.readBuf ++ b).length rfl rfl hsync (by rw [htot])
  rw [htot] at this
  obtain ⟨h1, ⟨t, h2⟩, h3⟩ := this
  refine ⟨h1, ⟨t, by simpa using h2⟩, fun h => by simpa using h3 h, ?_⟩
  intro hq
  rw [hq] at h3
  refine ⟨fun h => by simpa using h3 h, ?_⟩
  intro hb
  subst hb
  cases sizes <;> rfl

/-- Witness for C1: three bytes written by the sample sender are read back through
buffers of sizes 2, 0, 5 and 4. -/
theorem stream_round_trip_witness :
    ((sampleConn (sampleNet [])).Write sampleDeps [1, 2, 3]).2.1 = none ∧
    ((sampleConn (sampleNet [17, 0, 0, 0, 0, 0, 0, 0, 1, 1, 1, 2, 1, 3, 0, 9, 9,
        0, 0, 0, 0, 0, 0, 0, 0])).readUntil sampleDeps [2, 0, 5, 4] 3 []).1 = [1, 2, 3] :=
  ⟨by decide,
   ((stream_round_trip sampleDeps (sampleConn (sampleNet []))
      (sampleConn (sampleNet [17, 0, 0, 0, 0, 0, 0, 0, 1, 1, 1, 2, 1, 3, 0, 9, 9,
        0, 0, 0, 0, 0, 0, 0, 0])) [1, 2, 3] [2, 0, 5, 4] rfl rfl (by decide)
      (fun rnd pt ad o h => sampleDeps_inverse rnd _ _ _ _ pt ad o h)
      sampleDeps_codec sampleDeps_length rfl (by decide) (by decide)).2.2.2 rfl).1
      (by decide)⟩

end DataPathTheorems

end Signcryption.STL

namespace Signcryption.STL

section SegmentationTheorems

variable {CC SC Priv Pub Out : Type}

theorem specSegments_16385 (b : Bytes) (h : b.length = 16385) :
    (specSegments b).map List.length = [16384, 1] := by
  have hb : b ≠ [] := by intro h0; rw [h0] at h; simp at h
  have hd : (b.drop maxPlaintext).length = 1 := by
    rw [List.length_drop, h]; rfl
  have hb1 : b.drop maxPlaintext ≠ [] := by intro h0; rw [h0] at hd; simp at hd
  have hd2 : (b.drop maxPlaintext).drop maxPlaintext = [] :=
    List.drop_eq_nil_of_le (by rw [hd]; decide)
  rw [specSegments_cons b hb, specSegments_cons _ hb1, hd2, specSegments_nil]
  simp only [List.map_cons, List.map_nil, List.length_take, hd, h]
  rfl

/-- C2. Segmentation. A `Write(b)` in which no segment fails returns `len(b)` and emits
exactly `ceil(len(b) / 16384)` frames, in order; frame `i` is the length-framed
serialization of the engine's output for the plaintext
`b[i*16384 .. min((i+1)*16384, len(b)))` under `sessionKey ‖ le64(counter + i)`. These
plaintexts are never empty, hold at most 16384 bytes, exactly 16384 in every
segment but the last, and concatenate to `b`. In particular 16385 bytes give two
segments of 16384 and 1 bytes, 50000 bytes give four and no bytes give none. -/
theorem write_segmentation (d : Deps Priv Pub Out) (c : Conn CC SC Priv Pub) (b : Bytes)
    (hc : c.writtenSegments < u64) (hok : (c.Write d b).2.1 = none) :
    (c.Write d b).1 = b.length ∧
    (∃ frames : List Bytes,
      (c.Write d b).2.2.conn.sent = c.conn.sent ++ frames ∧
      (c.Write d b).2.2.conn.outbound = c.conn.outbound ++ frames.flatten ∧
      frames.length = (b.length + maxPlaintext - 1) / maxPlaintext ∧
      (∀ (i : Nat) (hi : i < frames.length), ∃ rnd o m,
        d.Signcrypt rnd c.privateKey c.publicKey
          ((b.drop (i * maxPlaintext)).take
            (min ((i + 1) * maxPlaintext) b.length - i * maxPlaintext))
          (c.sessionKey ++ PutUint64 (c.writtenSegments + i)) = .ok o ∧
        d.Marshal o = .ok m ∧ frames[i] = PutUint64 m.length ++ m) ∧
      (b.length = 16385 → frames.length = 2) ∧
      (b.length = 50000 → frames.length = 4) ∧
      (b.length = 0 → frames = [])) ∧
    (specSegments b).length = (b.length + maxPlaintext - 1) / maxPlaintext ∧
    (∀ (i : Nat) (h : i < (specSegments b).length),
      (specSegments b)[i] = (b.drop (i * maxPlaintext)).take
        (min ((i + 1) * maxPlaintext) b.length - i * maxPlaintext)) ∧
    (∀ s ∈ specSegments b, s ≠ [] ∧ s.length ≤ maxPlaintext) ∧
    (∀ (i : Nat) (_ : i + 1 < (specSegments b).length) (h : i < (specSegments b).length),
      (specSegments b)[i].length = maxPlaintext) ∧
    (specSegments b).flatten = b ∧
    (b.length = 16385 → (specSegments b).map List.length = [16384, 1]) := by
  obtain ⟨done, frames, hem, _, hsucc⟩ := Write_emits d c b hc
  obtain ⟨hdone, hn, hout⟩ := hsucc hok
  subst hdone
  have hfl : frames.length = (b.length + maxPlaintext - 1) / maxPlaintext := by
    rw [Frames_length hem.2.2.2.1, specSegments_length]
  refine ⟨by rw [hn, specSegments_flatten], ⟨frames, hem.2.2.2.2.1, hout, hfl, ?_, ?_, ?_, ?_⟩,
    specSegments_length b, specSegments_getElem b, specSegments_mem b, specSegments_full b,
    specSegments_flatten b,
    specSegments_16385 b⟩
  · intro i hi
    have hi' : i < (specSegments b).length := by
      rw [← Frames_length hem.2.2.2.1]; exact hi
    obtain ⟨rnd, o, m, h1, h2, h3⟩ := Frames_get hem.2.2.2.1 i hi hi'
    rw [specSegments_getElem] at h1
    exact ⟨rnd, o, m, h1, h2, h3⟩
  · intro h; rw [hfl, h]; rfl
  · intro h; rw [hfl, h]; rfl
  · intro h
    apply List.length_eq_zero.mp
    rw [hfl, h]; rfl

/-- Witness for C2: the sample connection writes three bytes. -/
theorem write_segmentation_witness :
    ((sampleConn (sampleNet [])).Write sampleDeps [1, 2, 3]).1 = [(1 : Byte), 2, 3].length :=
  (write_segmentation sampleDeps (sampleConn (sampleNet [])) [1, 2, 3]
    (by decide) (by decide)).1

/-- C3. Replay and reorder defence. The engine reports a segment authentic only under
the additional data it was signcrypted under. A segment written under write counter
`i` and presented to a receiver with the same session key, an empty plaintext queue
and read counter `j ≠ i` (both below `2^64`) makes `Read` fail at the authenticity
check and return no byte; the queue stays empty and the read counter stays `j`. The
two additional data `sessionKey ‖ le64(i)` and `sessionKey ‖ le64(j)` differ. -/
theorem replay_reorder_rejected (d : Deps Priv Pub Out) (s r : Conn CC SC Priv Pub)
    (pt frame rest : Bytes) (i j n : Nat)
    (hi : i < u64) (hj : j < u64) (hij : i ≠ j)
    (hs : s.writtenSegments = i) (hr : r.readSegments = j)
    (hkey : s.sessionKey = r.sessionKey)
    (hAuth : ∀ rnd priv pub pt ad o, d.Signcrypt rnd priv pub pt ad = .ok o →
      ∀ pub' priv' ad', authentic (d.Unsigncrypt pub' priv' ad' o) = true → ad' = ad)
    (hCodec : ∀ o m, d.Marshal o = .ok m → d.Unmarshal m = .ok o)
    (hLen : ∀ o m, d.Marshal o = .ok m → m.length < u64)
    (hW : (s.writeSegment d pt).1 = none)
    (hframe : (s.writeSegment d pt).2.conn.outbound = s.conn.outbound ++ frame)
    (hin : r.conn.inbound = frame ++ rest)
    (hrel : r.conn.readFaults = [])
    (hq : r.readBuf = []) :
    s.sessionKey ++ PutUint64 i ≠ r.sessionKey ++ PutUint64 j ∧
    (r.Read d n).1 = [] ∧
    ((r.Read d n).2.1 = some (.wrap "error reading segment" (.new "error: segment is invalid")) ∨
      ∃ e, (r.Read d n).2.1 =
        some (.wrap "error reading segment" (.wrap "error unsigncrypting segment" e))) ∧
    (r.Read d n).2.2.readBuf = [] ∧
    (r.Read d n).2.2.readSegments = j ∧
    (r.Read d n).2.2.conn.inbound = rest := by
  have hne : s.sessionKey ++ PutUint64 i ≠ r.sessionKey ++ PutUint64 j := by
    rw [hkey]
    exact additionalData_ne _ hi hj hij
  obtain ⟨o, m, hS, hM, hout, _, _⟩ := writeSegment_ok d s pt hW
  have hfr : frame = PutUint64 m.length ++ m :=
    List.append_cancel_left (hframe.symm.trans hout)
  have hrs := readSegment_on_frame d r m rest o hrel (by rw [hin, hfr]) (hLen o m hM)
    (hCodec o m hM)
  have hna : authentic (d.Unsigncrypt r.publicKey r.privateKey
      (r.sessionKey ++ PutUint64 r.readSegments) o) = false := by
    cases ha : authentic (d.Unsigncrypt r.publicKey r.privateKey
      (r.sessionKey ++ PutUint64 r.readSegments) o) with
    | false => rfl
    | true =>
      have := hAuth _ _ _ _ _ _ hS _ _ _ ha
      rw [hs, hr] at this
      exact absurd this.symm hne
  refine ⟨hne, ?_⟩
  unfold Conn.Read
  simp only [hq, List.length_nil, if_true, hrs]
  cases hu : d.Unsigncrypt r.publicKey r.privateKey (r.sessionKey ++ PutUint64 r.readSegments) o with
  | error e => simp [hq, hr]
  | ok p =>
    obtain ⟨pt', valid⟩ := p
    rw [hu] at hna
    simp only [authentic] at hna
    subst hna
    simp [hq, hr]

/-- Witness for C3: the segment the sample sender writes under counter 0 is presented
to a receiver whose read counter is 1. -/
theorem replay_reorder_rejected_witness :
    ({ sampleConn (sampleNet [13, 0, 0, 0, 0, 0, 0, 0, 1, 7, 0, 9, 9, 0, 0, 0, 0, 0, 0, 0, 0])
        with readSegments := 1 }.Read sampleDeps 4).1 = [] :=
  (replay_reorder_rejected sampleDeps (sampleConn (sampleNet []))
    { sampleConn (sampleNet [13, 0, 0, 0, 0, 0, 0, 0, 1, 7, 0, 9, 9, 0, 0, 0, 0, 0, 0, 0, 0])
        with readSegments := 1 }
    [7] [13, 0, 0, 0, 0, 0, 0, 0, 1, 7, 0, 9, 9, 0, 0, 0, 0, 0, 0, 0, 0] [] 0 1 4
    (by decide) (by decide) (by decide) rfl rfl rfl
    (fun rnd priv pub pt ad o h pub' priv' ad' ha =>
      sampleDeps_authentic rnd priv priv' pub pub' pt ad ad' o h ha)
    sampleDeps_codec sampleDeps_length (by decide) (by decide) (by decide) rfl rfl).2.1

end SegmentationTheorems

end Signcryption.STL

namespace Signcryption.STL

section SequenceLemmas

variable {CC SC Priv Pub Out : Type}

/-! ## Sequences of calls -/

theorem u64_pos : 0 < u64 := by simp [u64]

theorem PutUint64_add_mod (x k : Nat) : PutUint64 (x % u64 + k) = PutUint64 (x + k) := by
  rw [← PutUint64_mod (x % u64 + k), Nat.mod_add_mod, PutUint64_mod]

theorem consecutiveAD_append (key : Bytes) (ctr a b : Nat) :
    consecutiveAD key ctr (a + b) =
      consecutiveAD key ctr a ++ consecutiveAD key ((ctr + a) % u64) b := by
  unfold consecutiveAD
  rw [List.range_add, List.map_append, List.map_map]
  congr 1
  apply List.map_congr_left
  intro k _
  simp only [Function.comp, PutUint64_add_mod, Nat.add_assoc]

theorem consecutiveAD_one (key : Bytes) (ctr : Nat) :
    consecutiveAD key ctr 1 = [key ++ PutUint64 ctr] := by
  rfl

theorem consecutiveAD_nodup (key : Bytes) (ctr n : Nat) (h : ctr + n ≤ u64) :
    (consecutiveAD key ctr n).Nodup := by
  unfold consecutiveAD
  refine List.Nodup.map_on ?_ (List.nodup_range n)
  intro x hx y hy hxy
  rw [List.mem_range] at hx hy
  have := PutUint64_inj (by omega) (by omega) (List.append_cancel_left hxy)
  omega

/-! ### The read side -/

theorem Read_queue (d : Deps Priv Pub Out) (c : Conn CC SC Priv Pub) (n : Nat)
    (h : c.readBuf ≠ []) :
    c.Read d n = (c.readBuf.take n, none, { c with readBuf := c.readBuf.drop n }) := by
  unfold Conn.Read
  have : c.readBuf.length ≠ 0 := fun h0 => h (List.length_eq_zero.mp h0)
  simp only [this, if_false]
  exact drain_nonempty c n h

theorem Read_fetch_err (d : Deps Priv Pub Out) (c : Conn CC SC Priv Pub) (n : Nat) (e : Err)
    (h : c.readBuf = []) (he : (c.readSegment d).1 = some e) :
    c.Read d n = ([], some (.wrap "error reading segment" e), (c.readSegment d).2) := by
  unfold Conn.Read
  cases hrs : c.readSegment d with
  | mk r c1 =>
    rw [hrs] at he
    simp only [] at he
    subst he
    simp [h]

theorem Read_fetch_ok (d : Deps Priv Pub Out) (c : Conn CC SC Priv Pub) (n : Nat)
    (h : c.readBuf = []) (he : (c.readSegment d).1 = none) :
    c.Read d n = (c.readSegment d).2.drain n := by
  unfold Conn.Read
  cases hrs : c.readSegment d with
  | mk r c1 =>
    rw [hrs] at he
    simp only [] at he
    subst he
    simp [h]

theorem drain_frame (c : Conn CC SC Priv Pub) (n : Nat) :
    (c.drain n).2.2.sessionKey = c.sessionKey ∧ (c.drain n).2.2.publicKey = c.publicKey ∧
    (c.drain n).2.2.privateKey = c.privateKey ∧ (c.drain n).2.2.aal = c.aal ∧
    (c.drain n).2.2.conn = c.conn ∧
    (c.drain n).2.2.writtenSegments = c.writtenSegments ∧
    (c.drain n).2.2.readSegments = c.readSegments := by
  unfold Conn.drain
  simp

/-- What any `Read` call does to the counter and to the record of engine calls. -/
theorem Read_cases (d : Deps Priv Pub Out) (c : Conn CC SC Priv Pub) (n : Nat) :
    (c.Read d n).2.2.sessionKey = c.sessionKey ∧
    (((c.Read d n).2.2.readSegments = c.readSegments ∧
        (c.Read d n).2.2.aal.unsigncrypted = c.aal.unsigncrypted) ∨
     ((c.Read d n).2.1 ≠ none ∧ (c.Read d n).2.2.readSegments = c.readSegments ∧
        (c.Read d n).2.2.aal.unsigncrypted =
          c.aal.unsigncrypted ++ [(c.sessionKey ++ PutUint64 c.readSegments, false)]) ∨
     ((c.Read d n).2.2.readSegments = (c.readSegments + 1) % u64 ∧
        (c.Read d n).2.2.aal.unsigncrypted =
          c.aal.unsigncrypted ++ [(c.sessionKey ++ PutUint64 c.readSegments, true)])) := by
  by_cases hb : c.readBuf = []
  · have hfr := readSegment_frame d c
    simp only [] at hfr
    cases he : (c.readSegment d).1 with
    | some e =>
      rw [Read_fetch_err d c n e hb he]
      obtain ⟨_, h2, h3⟩ := readSegment_err d c e he
      refine ⟨hfr.1, ?_⟩
      rcases h3 with h3 | h3
      · exact Or.inl ⟨h2, h3⟩
      · exact Or.inr (Or.inl ⟨by simp, h2, h3⟩)
    | none =>
      rw [Read_fetch_ok d c n hb he]
      obtain ⟨_, h2, h3⟩ := readSegment_ok d c he
      have hd := drain_frame (c.readSegment d).2 n
      refine ⟨hd.1.trans hfr.1, Or.inr (Or.inr ⟨hd.2.2.2.2.2.2.trans h2, ?_⟩)⟩
      rw [hd.2.2.2.1, h3]
  · rw [Read_queue d c n hb]
    exact ⟨rfl, Or.inl ⟨rfl, rfl⟩⟩

theorem Read_fetched (d : Deps Priv Pub Out) (c : Conn CC SC Priv Pub) (n : Nat)
    (hc : c.readSegments < u64) : ∃ calls, Fetched c (c.Read d n).2.2 calls := by
  obtain ⟨hk, h | h | h⟩ := Read_cases d c n
  · exact ⟨[], hk, by simp [h.2], by simp [h.1, Nat.mod_eq_of_lt hc], by simp [consecutiveAD]⟩
  · exact ⟨[(c.sessionKey ++ PutUint64 c.readSegments, false)], hk, h.2.2,
      by simp [h.2.1, Nat.mod_eq_of_lt hc], by simp [consecutiveAD]⟩
  · exact ⟨[(c.sessionKey ++ PutUint64 c.readSegments, true)], hk, h.2,
      by simp [h.1], by simp [consecutiveAD_one]⟩

theorem Fetched_trans {c c1 c2 : Conn CC SC Priv Pub} {k1 k2 : List (Bytes × Bool)}
    (h1 : Fetched c c1 k1) (h2 : Fetched c1 c2 k2) : Fetched c c2 (k1 ++ k2) := by
  obtain ⟨a1, b1, c1', d1⟩ := h1
  obtain ⟨a2, b2, c2', d2⟩ := h2
  refine ⟨a2.trans a1, by rw [b2, b1, List.append_assoc], ?_, ?_⟩
  · rw [c2', c1', List.filter_append, List.length_append]
    simp only [u64]
    omega
  · rw [List.filter_append, List.map_append, List.length_append, consecutiveAD_append,
      d1, d2, a1, c1']

theorem Reads_fetched (d : Deps Priv Pub Out) (ns : List Nat) :
    ∀ (c : Conn CC SC Priv Pub), c.readSegments < u64 →
      ∃ calls, Fetched c (c.Reads d ns).2 calls := by
  induction ns with
  | nil =>
    intro c hc
    exact ⟨[], rfl, by simp [Conn.Reads], by simp [Conn.Reads, Nat.mod_eq_of_lt hc],
      by simp [consecutiveAD]⟩
  | cons n ns ih =>
    intro c hc
    obtain ⟨k1, h1⟩ := Read_fetched d c n hc
    have hc1 : (c.Read d n).2.2.readSegments < u64 := by
      rw [h1.2.2.1]
      exact Nat.mod_lt _ u64_pos
    obtain ⟨k2, h2⟩ := ih (c.Read d n).2.2 hc1
    have : (c.Reads d (n :: ns)).2 = ((c.Read d n).2.2.Reads d ns).2 := by
      simp [Conn.Reads]
    rw [this]
    exact ⟨k1 ++ k2, Fetched_trans h1 h2⟩

end SequenceLemmas

end Signcryption.STL

namespace Signcryption.STL

section CounterTheorems

variable {EcPriv EcPub SPriv SPub Out : Type}

/-- C10. Counter monotonicity. `NewConn` and `NewServerConn` create a `Conn` with both
counters at 0. On a `Conn` whose counters are 0, after any sequence of `Write`
calls, failed ones included, the frames the stream accepted number `N` and the write
counter is `N mod 2^64`, hence `N` when `N < 2^64`; the `k`-th of them (counting
from 0) is the length-framed serialization of an engine output signcrypted under
`sessionKey ‖ le64(k)`. After any sequence of `Read` calls the read counter is the
number of segments the engine reported authentic (again modulo `2^64`), these
having been unsigncrypted under the additional data of the counter values
`0, 1, 2, ...`. A `Read` served from a non-empty plaintext queue leaves the read
counter unchanged and asks the engine nothing. -/
theorem counter_monotonicity (d : Deps SPriv SPub Out) (c : StlConn EcPriv EcPub SPriv SPub)
    (bs : List Bytes) (ns : List Nat)
    (hw : c.writtenSegments = 0) (hr : c.readSegments = 0) :
    (∀ (net : NetConn) (cfg : ClientConfig EcPriv EcPub SPriv SPub) (e : List Nat),
      (NewConn net cfg e).writtenSegments = 0 ∧ (NewConn net cfg e).readSegments = 0) ∧
    (∀ (net : NetConn) (cfg : ServerConfig EcPriv EcPub SPriv) (e : List Nat),
      (NewServerConn net cfg e : StlConn EcPriv EcPub SPriv SPub).writtenSegments = 0 ∧
      (NewServerConn net cfg e : StlConn EcPriv EcPub SPriv SPub).readSegments = 0) ∧
    (∃ frames : List Bytes,
      (c.Writes d bs).2.conn.sent = c.conn.sent ++ frames ∧
      (c.Writes d bs).2.writtenSegments = frames.length % u64 ∧
      (frames.length < u64 → (c.Writes d bs).2.writtenSegments = frames.length) ∧
      ∀ (k : Nat) (hk : k < frames.length),
        IsSegmentFrame d c.sessionKey c.privateKey c.publicKey k frames[k]) ∧
    (∃ calls : List (Bytes × Bool),
      (c.Reads d ns).2.aal.unsigncrypted = c.aal.unsigncrypted ++ calls ∧
      (c.Reads d ns).2.readSegments = (calls.filter (·.2)).length % u64 ∧
      ((calls.filter (·.2)).length < u64 →
        (c.Reads d ns).2.readSegments = (calls.filter (·.2)).length) ∧
      (calls.filter (·.2)).map Prod.fst =
        (List.range (calls.filter (·.2)).length).map fun k => c.sessionKey ++ PutUint64 k) ∧
    (∀ (c' : StlConn EcPriv EcPub SPriv SPub) (n : Nat), c'.readBuf ≠ [] →
      (c'.Read d n).2.2.readSegments = c'.readSegments ∧
      (c'.Read d n).2.2.aal.unsigncrypted = c'.aal.unsigncrypted) := by
  refine ⟨fun _ _ _ => ⟨rfl, rfl⟩, fun _ _ _ => ⟨rfl, rfl⟩, ?_, ?_, ?_⟩
  · obtain ⟨done, frames, hem, _⟩ := Writes_emits d bs c (by rw [hw]; exact u64_pos)
    obtain ⟨_, _, _, hfr, hsent, hctr⟩ := hem
    rw [hw, Nat.zero_add] at hctr
    refine ⟨frames, hsent, hctr, fun h => by rw [hctr, Nat.mod_eq_of_lt h], ?_⟩
    intro k hk
    obtain ⟨rnd, o, m, h1, h2, h3⟩ :=
      Frames_get hfr k hk (by rw [← Frames_length hfr]; exact hk)
    simp only [hw, Nat.zero_add] at h1
    exact ⟨rnd, _, o, m, h1, h2, h3⟩
  · obtain ⟨calls, _, hlog, hctr, hads⟩ := Reads_fetched d ns c (by rw [hr]; exact u64_pos)
    rw [hr, Nat.zero_add] at hctr
    refine ⟨calls, hlog, hctr, fun h => by rw [hctr, Nat.mod_eq_of_lt h], ?_⟩
    rw [hads, hr]
    unfold consecutiveAD
    simp
  · intro c' n hne
    rw [Read_queue d c' n hne]
    exact ⟨rfl, rfl⟩

/-- Witness for C10: a fresh client connection, two writes and one read at end of
stream. -/
theorem counter_monotonicity_witness :
    ∃ frames : List Bytes,
      ((NewConn (sampleNet []) sampleClientConfig []).Writes sampleDeps [[1], [2, 3]]).2.conn.sent
        = (sampleNet []).sent ++ frames ∧
      ((NewConn (sampleNet []) sampleClientConfig []).Writes sampleDeps
        [[1], [2, 3]]).2.writtenSegments = frames.length % u64 :=
  let ⟨frames, h1, h2, _⟩ := (counter_monotonicity sampleDeps
    (NewConn (sampleNet []) sampleClientConfig []) [[1], [2, 3]] [4] rfl rfl).2.2.1
  ⟨frames, h1, h2⟩

end CounterTheorems

end Signcryption.STL

namespace Signcryption.STL

section LogLemmas

variable {CC SC Priv Pub Out : Type}

/-! ### The record of engine calls -/

theorem SignLog_trans {c c1 c2 : Conn CC SC Priv Pub} {n1 n2 : Nat} {ok : Prop}
    (h1 : SignLog c c1 n1 True) (h2 : SignLog c1 c2 n2 ok) : SignLog c c2 (n1 + n2) ok := by
  obtain ⟨a1, b1, _, d1⟩ := h1
  obtain ⟨a2, b2, c2', d2⟩ := h2
  have e1 := d1 trivial
  refine ⟨a2.trans a1, ?_, c2', ?_⟩
  · rw [b2, b1, a1, e1, consecutiveAD_append, List.append_assoc]
  · intro h
    rw [d2 h, e1]
    simp only [u64]
    omega

theorem SignLog_weaken {c c' : Conn CC SC Priv Pub} {n : Nat} {ok : Prop}
    (h : SignLog c c' n ok) : SignLog c c' n False :=
  ⟨h.1, h.2.1, h.2.2.1, fun f => f.elim⟩

theorem writeSegment_signlog (d : Deps Priv Pub Out) (c : Conn CC SC Priv Pub) (b : Bytes)
    (hc : c.writtenSegments < u64) :
    SignLog c (c.writeSegment d b).2 1 ((c.writeSegment d b).1 = none) := by
  have hfr := writeSegment_frame d c b
  simp only [] at hfr
  refine ⟨hfr.1, by rw [hfr.2.2.2.2.2.1]; simp [consecutiveAD_one], ?_, ?_⟩
  · cases h : (c.writeSegment d b).1 with
    | none =>
      obtain ⟨_, _, _, _, _, _, hw⟩ := writeSegment_ok d c b h
      rw [hw]
      exact Nat.mod_lt _ u64_pos
    | some e =>
      rw [(writeSegment_err d c b e h).1]
      exact hc
  · intro h
    obtain ⟨_, _, _, _, _, _, hw⟩ := writeSegment_ok d c b h
    exact hw

theorem writeSegments_signlog (d : Deps Priv Pub Out) (segs : List Bytes) :
    ∀ (c : Conn CC SC Priv Pub), c.writtenSegments < u64 →
      ∃ n, n ≤ segs.length ∧
        SignLog c (c.writeSegments d segs).2.2 n ((c.writeSegments d segs).2.1 = none) := by
  induction segs with
  | nil =>
    intro c hc
    exact ⟨0, Nat.le_refl _, rfl, by simp [consecutiveAD, Conn.writeSegments], hc,
      fun _ => by simp [Conn.writeSegments, Nat.mod_eq_of_lt hc]⟩
  | cons seg segs ih =>
    intro c hc
    have h1 := writeSegment_signlog d c seg hc
    cases hws : c.writeSegment d seg with
    | mk r c1 =>
      rw [hws] at h1
      cases r with
      | some e =>
        refine ⟨1, by simp, ?_⟩
        simp only [Conn.writeSegments, hws]
        exact ⟨h1.1, h1.2.1, h1.2.2.1, fun h => by simp at h⟩
      | none =>
        obtain ⟨n, hn, h2⟩ := ih c1 h1.2.2.1
        refine ⟨1 + n, by simp; omega, ?_⟩
        simp only [Conn.writeSegments, hws]
        exact SignLog_trans ⟨h1.1, h1.2.1, h1.2.2.1, fun _ => h1.2.2.2 rfl⟩ h2

theorem Write_signlog (d : Deps Priv Pub Out) (c : Conn CC SC Priv Pub) (b : Bytes)
    (hc : c.writtenSegments < u64) :
    ∃ n, n ≤ (specSegments b).length ∧
      SignLog c (c.Write d b).2.2 n ((c.Write d b).2.1 = none) := by
  rw [Write_eq]
  exact writeSegments_signlog d (specSegments b) c hc

theorem Writes_signlog (d : Deps Priv Pub Out) (bs : List Bytes) :
    ∀ (c : Conn CC SC Priv Pub), c.writtenSegments < u64 →
      (∀ r ∈ (c.Writes d bs).1.dropLast, r.2 = none) →
      ∃ n, n ≤ (bs.map fun b => (specSegments b).length).sum ∧
        SignLog c (c.Writes d bs).2 n False := by
  induction bs with
  | nil =>
    intro c hc _
    exact ⟨0, Nat.le_refl _, rfl, by simp [consecutiveAD, Conn.Writes], hc, fun f => f.elim⟩
  | cons b bs ih =>
    intro c hc hall
    obtain ⟨n1, hn1, h1⟩ := Write_signlog d c b hc
    have hunf : c.Writes d (b :: bs) =
        (((c.Write d b).1, (c.Write d b).2.1) :: ((c.Write d b).2.2.Writes d bs).1,
          ((c.Write d b).2.2.Writes d bs).2) := by
      simp [Conn.Writes]
    cases bs with
    | nil =>
      refine ⟨n1, by simpa using hn1, ?_⟩
      rw [hunf]
      exact SignLog_weaken h1
    | cons b2 bs2 =>
      have hunf2 : (c.Write d b).2.2.Writes d (b2 :: bs2) =
          ((((c.Write d b).2.2.Write d b2).1, ((c.Write d b).2.2.Write d b2).2.1) ::
            (((c.Write d b).2.2.Write d b2).2.2.Writes d bs2).1,
            (((c.Write d b).2.2.Write d b2).2.2.Writes d bs2).2) := by
        simp [Conn.Writes]
      rw [hunf] at hall ⊢
      simp only [] at hall ⊢
      rw [hunf2] at hall
      simp only [List.dropLast_cons₂, List.mem_cons, forall_eq_or_imp] at hall
      obtain ⟨hfirst, hrest⟩ := hall
      obtain ⟨n2, hn2, h2⟩ := ih (c.Write d b).2.2 h1.2.2.1 (by
        rw [hunf2]
        simpa only [List.dropLast_cons₂, List.mem_cons, forall_eq_or_imp] using hrest)
      refine ⟨n1 + n2, by simp only [List.map_cons, List.sum_cons] at hn2 ⊢; omega, ?_⟩
      exact SignLog_trans ⟨h1.1, h1.2.1, h1.2.2.1, fun _ => h1.2.2.2 hfirst⟩ h2

theorem UnsignLog_trans {c c1 c2 : Conn CC SC Priv Pub} {n1 n2 : Nat} {ok : Prop}
    (h1 : UnsignLog c c1 n1 True) (h2 : UnsignLog c1 c2 n2 ok) :
    UnsignLog c c2 (n1 + n2) ok := by
  obtain ⟨a1, b1, _, d1⟩ := h1
  obtain ⟨a2, b2, c2', d2⟩ := h2
  have e1 := d1 trivial
  refine ⟨a2.trans a1, ?_, c2', ?_⟩
  · rw [b2, b1, a1, e1, consecutiveAD_append, List.append_assoc]
  · intro h
    rw [d2 h, e1]
    simp only [u64]
    omega

theorem Read_unsignlog (d : Deps Priv Pub Out) (c : Conn CC SC Priv Pub) (n : Nat)
    (hc : c.readSegments < u64) :
    ∃ k, k ≤ 1 ∧ UnsignLog c (c.Read d n).2.2 k ((c.Read d n).2.1 = none) := by
  obtain ⟨hk, h | h | h⟩ := Read_cases d c n
  · exact ⟨0, by omega, hk, by simp [h.2, consecutiveAD], by rw [h.1]; exact hc,
      fun _ => by simp [h.1, Nat.mod_eq_of_lt hc]⟩
  · exact ⟨1, by omega, hk, by simp [h.2.2, consecutiveAD_one], by rw [h.2.1]; exact hc,
      fun h0 => absurd h0 h.1⟩
  · exact ⟨1, by omega, hk, by simp [h.2, consecutiveAD_one],
      by rw [h.1]; exact Nat.mod_lt _ u64_pos, fun _ => h.1⟩

theorem Reads_unsignlog (d : Deps Priv Pub Out) (ns : List Nat) :
    ∀ (c : Conn CC SC Priv Pub), c.readSegments < u64 →
      (∀ r ∈ (c.Reads d ns).1.dropLast, r.2 = none) →
      ∃ k, k ≤ ns.length ∧ UnsignLog c (c.Reads d ns).2 k False := by
  induction ns with
  | nil =>
    intro c hc _
    exact ⟨0, Nat.le_refl _, rfl, by simp [consecutiveAD, Conn.Reads], hc, fun f => f.elim⟩
  | cons n ns ih =>
    intro c hc hall
    obtain ⟨k1, hk1, h1⟩ := Read_unsignlog d c n hc
    have hunf : c.Reads d (n :: ns) =
        (((c.Read d n).1, (c.Read d n).2.1) :: ((c.Read d n).2.2.Reads d ns).1,
          ((c.Read d n).2.2.Reads d ns).2) := by
      simp [Conn.Reads]
    cases ns with
    | nil =>
      refine ⟨k1, by simpa using hk1, ?_⟩
      rw [hunf]
      exact ⟨h1.1, h1.2.1, h1.2.2.1, fun f => f.elim⟩
    | cons n2 ns2 =>
      have hunf2 : (c.Read d n).2.2.Reads d (n2 :: ns2) =
          ((((c.Read d n).2.2.Read d n2).1, ((c.Read d n).2.2.Read d n2).2.1) ::
            (((c.Read d n).2.2.Read d n2).2.2.Reads d ns2).1,
            (((c.Read d n).2.2.Read d n2).2.2.Reads d ns2).2) := by
        simp [Conn.Reads]
      rw [hunf] at hall ⊢
      simp only [] at hall ⊢
      rw [hunf2] at hall
      simp only [List.dropLast_cons₂, List.mem_cons, forall_eq_or_imp] at hall
      obtain ⟨hfirst, hrest⟩ := hall
      obtain ⟨k2, hk2, h2⟩ := ih (c.Read d n).2.2 h1.2.2.1 (by
        rw [hunf2]
        simpa only [List.dropLast_cons₂, List.mem_cons, forall_eq_or_imp] using hrest)
      refine ⟨k1 + k2, by simp only [List.length_cons] at hk2 ⊢; omega, ?_⟩
      exact UnsignLog_trans ⟨h1.1, h1.2.1, h1.2.2.1, fun _ => h1.2.2.2 hfirst⟩ h2

end LogLemmas

end Signcryption.STL

namespace Signcryption.STL

section FailureTheorems

variable {CC SC Priv Pub Out : Type}

theorem writeSegments_frame (d : Deps Priv Pub Out) (segs : List Bytes) :
    ∀ (c : Conn CC SC Priv Pub),
      (c.writeSegments d segs).2.2.readBuf = c.readBuf ∧
      (c.writeSegments d segs).2.2.readSegments = c.readSegments ∧
      (c.writeSegments d segs).2.2.aal.unsigncrypted = c.aal.unsigncrypted ∧
      (c.writeSegments d segs).2.2.conn.inbound = c.conn.inbound := by
  induction segs with
  | nil => intro c; exact ⟨rfl, rfl, rfl, rfl⟩
  | cons seg segs ih =>
    intro c
    have hfr := writeSegment_frame d c seg
    simp only [] at hfr
    obtain ⟨_, _, _, h4, h5, _, h7, h8, _⟩ := hfr
    cases hws : c.writeSegment d seg with
    | mk r c1 =>
      rw [hws] at h4 h5 h7 h8
      simp only [] at h4 h5 h7 h8
      cases r with
      | some e =>
        simp only [Conn.writeSegments, hws]
        exact ⟨h4, h5, h7, h8⟩
      | none =>
        simp only [Conn.writeSegments, hws]
        obtain ⟨i1, i2, i3, i4⟩ := ih c1
        exact ⟨i1.trans h4, i2.trans h5, i3.trans h7, i4.trans h8⟩

/-- Counterexample to C9 as stated. The stream refuses the first write; the caller
writes again. The engine is then asked to signcrypt under
`sessionKey ‖ le64(0)` a second time, for another plaintext. -/
theorem counter_reused_after_failed_write :
    ((sampleConn { sampleNet [] with writeFaults := [some 0] }).Writes sampleDeps
        [[1], [2]]).1.map Prod.snd =
      [some (.wrap "error writing segment"
        (.wrap "error writing segment to connection" (.ext "write failed"))), none] ∧
    ((sampleConn { sampleNet [] with writeFaults := [some 0] }).Writes sampleDeps
        [[1], [2]]).2.aal.signcrypted =
      [([1], [9, 9, 0, 0, 0, 0, 0, 0, 0, 0]), ([2], [9, 9, 0, 0, 0, 0, 0, 0, 0, 0])] ∧
    ¬ (((sampleConn { sampleNet [] with writeFaults := [some 0] }).Writes sampleDeps
        [[1], [2]]).2.aal.signcrypted.map Prod.snd).Nodup := by
  decide

/-- C9, amended. Over a sequence of `Write` calls in which no call but the last one
fails, and which cannot take the write counter past `2^64`, the additional data
passed to the engine are those of consecutive counter values and no value is
passed twice; the same holds of the read counter over a sequence of `Read` calls. A
single `Write` or `Read` never decreases its counter short of the wrap at `2^64`,
and a segment that fails to be written leaves the write counter where it was. -/
theorem counter_unique_until_failure (d : Deps Priv Pub Out) (c : Conn CC SC Priv Pub)
    (bs : List Bytes) (ns : List Nat)
    (hcw : c.writtenSegments < u64) (hcr : c.readSegments < u64) :
    ((∀ r ∈ (c.Writes d bs).1.dropLast, r.2 = none) →
      c.writtenSegments + (bs.map fun b => (specSegments b).length).sum ≤ u64 →
      ∃ ads : List Bytes,
        (c.Writes d bs).2.aal.signcrypted.map Prod.snd = c.aal.signcrypted.map Prod.snd ++ ads ∧
        ads = consecutiveAD c.sessionKey c.writtenSegments ads.length ∧ ads.Nodup) ∧
    ((∀ r ∈ (c.Reads d ns).1.dropLast, r.2 = none) →
      c.readSegments + ns.length ≤ u64 →
      ∃ ads : List Bytes,
        (c.Reads d ns).2.aal.unsigncrypted.map Prod.fst =
          c.aal.unsigncrypted.map Prod.fst ++ ads ∧
        ads = consecutiveAD c.sessionKey c.readSegments ads.length ∧ ads.Nodup) ∧
    (∀ b : Bytes, c.writtenSegments + (specSegments b).length < u64 →
      c.writtenSegments ≤ (c.Write d b).2.2.writtenSegments) ∧
    (∀ n : Nat, c.readSegments + 1 < u64 → c.readSegments ≤ (c.Read d n).2.2.readSegments) ∧
    (∀ (b : Bytes) (e : Err), (c.writeSegment d b).1 = some e →
      (c.writeSegment d b).2.writtenSegments = c.writtenSegments) := by
  refine ⟨?_, ?_, ?_, ?_, ?_⟩
  · intro hall hb
    obtain ⟨n, hn, _, hlog, _⟩ := Writes_signlog d bs c hcw hall
    have hlen : (consecutiveAD c.sessionKey c.writtenSegments n).length = n := by
      simp [consecutiveAD]
    exact ⟨_, hlog, by rw [hlen], consecutiveAD_nodup _ _ _ (by omega)⟩
  · intro hall hb
    obtain ⟨n, hn, _, hlog, _⟩ := Reads_unsignlog d ns c hcr hall
    have hlen : (consecutiveAD c.sessionKey c.readSegments n).length = n := by
      simp [consecutiveAD]
    exact ⟨_, hlog, by rw [hlen], consecutiveAD_nodup _ _ _ (by omega)⟩
  · intro b hb
    obtain ⟨done, frames, hem, hlen, _⟩ := Write_emits d c b hcw
    rw [hem.2.2.2.2.2]
    have := Frames_length hem.2.2.2.1
    rw [Nat.mod_eq_of_lt (by omega)]
    omega
  · intro n hn
    obtain ⟨_, h | h | h⟩ := Read_cases d c n
    · rw [h.1]
    · rw [h.2.1]
    · rw [h.1, Nat.mod_eq_of_lt hn]
      omega
  · intro b e h
    exact (writeSegment_err d c b e h).1

/-- Witness for C9, amended: two successful writes on the sample connection. -/
theorem counter_unique_until_failure_witness :
    ∃ ads : List Bytes,
      ((sampleConn (sampleNet [])).Writes sampleDeps [[1], [2]]).2.aal.signcrypted.map Prod.snd
        = (sampleConn (sampleNet [])).aal.signcrypted.map Prod.snd ++ ads ∧
      ads = consecutiveAD (sampleConn (sampleNet [])).sessionKey
        (sampleConn (sampleNet [])).writtenSegments ads.length ∧ ads.Nodup :=
  (counter_unique_until_failure sampleDeps (sampleConn (sampleNet [])) [[1], [2]] [4]
    (by decide) (by decide)).1 (by decide) (by decide)

/-- Counterexample to C6 as stated. The stream carries a replayed frame (written
under counter 5) followed by the frame written under counter 0. The first `Read`
fails at the authenticity check; the next `Read` on the same `Conn` returns the
plaintext `[8]`, and a `Write` after the failure emits a segment. -/
theorem read_succeeds_after_failed_read :
    ((sampleConn (sampleNet
        ([13, 0, 0, 0, 0, 0, 0, 0, 1, 7, 0, 9, 9, 5, 0, 0, 0, 0, 0, 0, 0] ++
         [13, 0, 0, 0, 0, 0, 0, 0, 1, 8, 0, 9, 9, 0, 0, 0, 0, 0, 0, 0, 0]))).Read
        sampleDeps 4).2.1 =
      some (.wrap "error reading segment" (.new "error: segment is invalid")) ∧
    (((sampleConn (sampleNet
        ([13, 0, 0, 0, 0, 0, 0, 0, 1, 7, 0, 9, 9, 5, 0, 0, 0, 0, 0, 0, 0] ++
         [13, 0, 0, 0, 0, 0, 0, 0, 1, 8, 0, 9, 9, 0, 0, 0, 0, 0, 0, 0, 0]))).Read
        sampleDeps 4).2.2.Read sampleDeps 4).1 = [8] ∧
    (((sampleConn (sampleNet
        ([13, 0, 0, 0, 0, 0, 0, 0, 1, 7, 0, 9, 9, 5, 0, 0, 0, 0, 0, 0, 0] ++
         [13, 0, 0, 0, 0, 0, 0, 0, 1, 8, 0, 9, 9, 0, 0, 0, 0, 0, 0, 0, 0]))).Read
        sampleDeps 4).2.2.Read sampleDeps 4).2.1 = none ∧
    (((sampleConn (sampleNet
        ([13, 0, 0, 0, 0, 0, 0, 0, 1, 7, 0, 9, 9, 5, 0, 0, 0, 0, 0, 0, 0] ++
         [13, 0, 0, 0, 0, 0, 0, 0, 1, 8, 0, 9, 9, 0, 0, 0, 0, 0, 0, 0, 0]))).Read
        sampleDeps 4).2.2.Write sampleDeps [5]).2.1 = none ∧
    (((sampleConn (sampleNet
        ([13, 0, 0, 0, 0, 0, 0, 0, 1, 7, 0, 9, 9, 5, 0, 0, 0, 0, 0, 0, 0] ++
         [13, 0, 0, 0, 0, 0, 0, 0, 1, 8, 0, 9, 9, 0, 0, 0, 0, 0, 0, 0, 0]))).Read
        sampleDeps 4).2.2.Write sampleDeps [5]).2.2.conn.sent.length = 1 := by
  decide

/-- C6, amended. A data-path failure is not recorded in the `Conn`. A `Read` that fails
while fetching a segment (stream failure, undecodable or non-authentic segment)
returns no byte and leaves the session key, the keys, both counters and the
plaintext queue as they were. A `Write` that fails leaves the session key, the
keys, the read counter and the plaintext queue as they were, and has advanced the
write counter by the number of frames the stream accepted before the failure. -/
theorem failure_leaves_state (d : Deps Priv Pub Out) (c : Conn CC SC Priv Pub)
    (n : Nat) (b : Bytes) (e : Err) (hc : c.writtenSegments < u64) :
    (c.readBuf = [] → (c.readSegment d).1 = some e →
      (c.Read d n).1 = [] ∧
      (c.Read d n).2.1 = some (.wrap "error reading segment" e) ∧
      (c.Read d n).2.2.sessionKey = c.sessionKey ∧
      (c.Read d n).2.2.publicKey = c.publicKey ∧
      (c.Read d n).2.2.privateKey = c.privateKey ∧
      (c.Read d n).2.2.readBuf = c.readBuf ∧
      (c.Read d n).2.2.readSegments = c.readSegments ∧
      (c.Read d n).2.2.writtenSegments = c.writtenSegments) ∧
    ((c.Write d b).2.1 = some e →
      (c.Write d b).2.2.sessionKey = c.sessionKey ∧
      (c.Write d b).2.2.publicKey = c.publicKey ∧
      (c.Write d b).2.2.privateKey = c.privateKey ∧
      (c.Write d b).2.2.readBuf = c.readBuf ∧
      (c.Write d b).2.2.readSegments = c.readSegments ∧
      ∃ frames : List Bytes,
        (c.Write d b).2.2.conn.sent = c.conn.sent ++ frames ∧
        (c.Write d b).2.2.writtenSegments = (c.writtenSegments + frames.length) % u64) := by
  constructor
  · intro hb he
    have hfr := readSegment_frame d c
    simp only [] at hfr
    obtain ⟨h1, h2, _⟩ := readSegment_err d c e he
    rw [Read_fetch_err d c n e hb he]
    exact ⟨rfl, rfl, hfr.1, hfr.2.1, hfr.2.2.1, h1, h2, hfr.2.2.2.1⟩
  · intro _
    obtain ⟨done, frames, hem, _, _⟩ := Write_emits d c b hc
    have hfr := writeSegments_frame d (specSegments b) c
    rw [Write_eq] at hem ⊢
    exact ⟨hem.1, hem.2.1, hem.2.2.1, hfr.1, hfr.2.1, frames, hem.2.2.2.2.1, hem.2.2.2.2.2⟩

/-- Witness for C6, amended: the failing `Read` of the counterexample. -/
theorem failure_leaves_state_witness :
    ((sampleConn (sampleNet
        ([13, 0, 0, 0, 0, 0, 0, 0, 1, 7, 0, 9, 9, 5, 0, 0, 0, 0, 0, 0, 0] ++
         [13, 0, 0, 0, 0, 0, 0, 0, 1, 8, 0, 9, 9, 0, 0, 0, 0, 0, 0, 0, 0]))).Read
        sampleDeps 4).2.2.readSegments = 0 :=
  ((failure_leaves_state sampleDeps (sampleConn (sampleNet
        ([13, 0, 0, 0, 0, 0, 0, 0, 1, 7, 0, 9, 9, 5, 0, 0, 0, 0, 0, 0, 0] ++
         [13, 0, 0, 0, 0, 0, 0, 0, 1, 8, 0, 9, 9, 0, 0, 0, 0, 0, 0, 0, 0])))
      4 [] (.new "error: segment is invalid") (by decide)).1 rfl (by decide)).2.2.2.2.2.2.1

end FailureTheorems

end Signcryption.STL

namespace Signcryption.STL

section HandshakeTheorems

variable {EcPriv EcPub SPriv SPub Req Resp : Type}

theorem handshakeAsServer_err (h : Handshakers EcPriv EcPub SPriv SPub Req Resp)
    (mp : HandshakeCodec Req Resp) (rand : List Nat) (c : StlConn EcPriv EcPub SPriv SPub)
    (e : Err) (he : (c.handshakeAsServer h mp rand).1 = some e) :
    (c.handshakeAsServer h mp rand).2.sessionKey = c.sessionKey ∧
    (c.handshakeAsServer h mp rand).2.publicKey = c.publicKey := by
  unfold Conn.handshakeAsServer at he ⊢
  simp only [] at he ⊢
  repeat' split at he
  all_goals first
    | exact ⟨rfl, rfl⟩
    | (simp at he; done)
    | simp_all

theorem handshakeAsClient_err (h : Handshakers EcPriv EcPub SPriv SPub Req Resp)
    (mp : HandshakeCodec Req Resp) (rand : List Nat) (c : StlConn EcPriv EcPub SPriv SPub)
    (e : Err) (he : (c.handshakeAsClient h mp rand).1 = some e) :
    (c.handshakeAsClient h mp rand).2.sessionKey = c.sessionKey ∧
    (c.handshakeAsClient h mp rand).2.publicKey = c.publicKey := by
  unfold Conn.handshakeAsClient at he ⊢
  simp only [] at he ⊢
  repeat' split at he
  all_goals first
    | exact ⟨rfl, rfl⟩
    | (simp at he; done)
    | simp_all

/-- C4. Handshake fails closed. For every handshaker, serializer and verifier, and in
either role: when `Handshake` on a `Conn` with an empty session key fails, for
whatever reason (stream read or write failure, undecodable request or response,
handshaker error, or the handshaker reporting `valid = false`), the session key of
the `Conn` is still empty afterwards. The same holds of `handshakeAsClient` and
`handshakeAsServer` called directly. -/
theorem handshake_fails_closed (h : Handshakers EcPriv EcPub SPriv SPub Req Resp)
    (mp : HandshakeCodec Req Resp) (rand : List Nat) (c : StlConn EcPriv EcPub SPriv SPub)
    (hempty : c.sessionKey = []) :
    ((c.Handshake h mp rand).1 ≠ none → (c.Handshake h mp rand).2.sessionKey = []) ∧
    ((c.handshakeAsClient h mp rand).1 ≠ none →
      (c.handshakeAsClient h mp rand).2.sessionKey = []) ∧
    ((c.handshakeAsServer h mp rand).1 ≠ none →
      (c.handshakeAsServer h mp rand).2.sessionKey = []) := by
  have hcl : (c.handshakeAsClient h mp rand).1 ≠ none →
      (c.handshakeAsClient h mp rand).2.sessionKey = [] := by
    intro hne
    obtain ⟨e, he⟩ := Option.ne_none_iff_exists'.mp hne
    rw [(handshakeAsClient_err h mp rand c e he).1, hempty]
  have hsv : (c.handshakeAsServer h mp rand).1 ≠ none →
      (c.handshakeAsServer h mp rand).2.sessionKey = [] := by
    intro hne
    obtain ⟨e, he⟩ := Option.ne_none_iff_exists'.mp hne
    rw [(handshakeAsServer_err h mp rand c e he).1, hempty]
  refine ⟨?_, hcl, hsv⟩
  unfold Conn.Handshake
  simp only [hempty, List.length_nil, ne_eq, not_true_eq_false, if_false]
  split
  · exact hcl
  · exact hsv

/-- Witness for C4: the sample server's verifier rejects the sample client's request;
the handshake fails and the server's session key stays empty. -/
theorem handshake_fails_closed_witness :
    ((NewServerConn (sampleNet sampleRequestWire) (sampleServerConfig rejectingVerifier) []
        : StlConn Nat Nat Nat Nat).Handshake sampleHandshakers sampleHandshakeCodec [2]).1
      = some (.new "error: handshake request is not valid") ∧
    ((NewServerConn (sampleNet sampleRequestWire) (sampleServerConfig rejectingVerifier) []
        : StlConn Nat Nat Nat Nat).Handshake sampleHandshakers sampleHandshakeCodec [2]).2.sessionKey
      = [] :=
  ⟨by decide,
   (handshake_fails_closed sampleHandshakers sampleHandshakeCodec [2]
      (NewServerConn (sampleNet sampleRequestWire) (sampleServerConfig rejectingVerifier) [])
      rfl).1 (by decide)⟩

end HandshakeTheorems

end Signcryption.STL

namespace Signcryption.STL

section HandshakeRun

variable {EcPriv EcPub SPriv SPub Req Resp : Type}

/-! ## A handshake over a reliable stream -/

theorem Uint64_PutUint64 (n : Nat) (h : n < u64) : Uint64 (PutUint64 n) = n := by
  have := Uint64_PutUint64_append n []
  rwa [List.append_nil, Nat.mod_eq_of_lt h] at this

/-- Reading one length-framed message off a reliable stream. -/
theorem ReadFull_message (s : NetConn) (m rest : Bytes) (hf : s.readFaults = [])
    (hin : s.inbound = PutUint64 m.length ++ m ++ rest) :
    s.ReadFull 8 = (.ok (PutUint64 m.length), { s with inbound := m ++ rest }) ∧
    ({ s with inbound := m ++ rest } : NetConn).ReadFull m.length
      = (.ok m, { s with inbound := rest }) := by
  constructor
  · have := ReadFull_append s (PutUint64 m.length) (m ++ rest) hf
      (by rw [hin, List.append_assoc])
    rwa [PutUint64_length] at this
  · have := ReadFull_append ({ s with inbound := m ++ rest } : NetConn) m rest hf rfl
    simpa using this

/-- The server side of `conn.go` when the request arrives whole, the handshaker
accepts it and the response can be serialized and written. -/
theorem handshakeAsServer_run (h : Handshakers EcPriv EcPub SPriv SPub Req Resp)
    (mp : HandshakeCodec Req Resp) (rand : List Nat) (s : StlConn EcPriv EcPub SPriv SPub)
    (sc : ServerConfig EcPriv EcPub SPriv) (reqBytes respBytes rest : Bytes)
    (req : Req) (resp : Resp) (hs' : serverHandshaker EcPriv EcPub)
    (hcfg : s.serverConfig = some sc)
    (hrf : s.conn.readFaults = []) (hwf : s.conn.writeFaults = [])
    (hin : s.conn.inbound = PutUint64 reqBytes.length ++ reqBytes ++ rest)
    (hlen : reqBytes.length < u64)
    (hU : mp.UnmarshalRequest reqBytes = .ok (some req))
    (hP : h.processRequest (newServerHandshaker rand sc) (some req)
      = ((some resp, true, none), hs'))
    (hM : mp.MarshalResponse (some resp) = .ok respBytes) :
    (s.handshakeAsServer h mp rand).1 = none ∧
    (s.handshakeAsServer h mp rand).2.sessionKey = hs'.sessionKey ∧
    (s.handshakeAsServer h mp rand).2.conn.outbound
      = s.conn.outbound ++ (PutUint64 respBytes.length ++ respBytes) := by
  obtain ⟨h8, hm⟩ := ReadFull_message s.conn reqBytes rest hrf hin
  unfold Conn.handshakeAsServer
  simp only [h8, Uint64_PutUint64 _ hlen, hm, hU, hcfg, hP, hM, Bool.not_true,
    Bool.false_eq_true, if_false]
  rw [Copy_reliable _ _ (by simpa using hwf)]
  simp

/-- What the client side of `conn.go` has put on the wire once its request was
serialized and written, whatever the rest of the handshake does. -/
theorem handshakeAsClient_outbound (h : Handshakers EcPriv EcPub SPriv SPub Req Resp)
    (mp : HandshakeCodec Req Resp) (rand : List Nat) (c : StlConn EcPriv EcPub SPriv SPub)
    (cc : ClientConfig EcPriv EcPub SPriv SPub) (reqBytes : Bytes)
    (hcfg : c.clientConfig = some cc) (hwf : c.conn.writeFaults = [])
    (hM : mp.MarshalRequest (h.generateRequest (newClientHandshaker h rand cc)).1
      = .ok reqBytes) :
    (c.handshakeAsClient h mp rand).2.conn.outbound
      = c.conn.outbound ++ (PutUint64 reqBytes.length ++ reqBytes) := by
  unfold Conn.handshakeAsClient
  simp only [hcfg, hM, Copy_reliable _ _ hwf]
  have h1 := ReadFull_frame
    ({ c.conn with outbound := c.conn.outbound ++ (PutUint64 reqBytes.length ++ reqBytes),
                   sent := c.conn.sent ++ [PutUint64 reqBytes.length ++ reqBytes] } : NetConn) 8
  split
  · rename_i err conn2 hc2
    rw [hc2] at h1
    exact h1.2.1
  · rename_i b1 conn2 hc2
    rw [hc2] at h1
    have h2 := ReadFull_frame conn2 (Uint64 b1)
    split
    · rename_i err conn3 hc3
      rw [hc3] at h2
      exact h2.2.1.trans h1.2.1
    · rename_i b2 conn3 hc3
      rw [hc3] at h2
      repeat' split
      all_goals exact h2.2.1.trans h1.2.1

/-- The client side of `conn.go` when the response arrives whole and the handshaker
accepts it. -/
theorem handshakeAsClient_run (h : Handshakers EcPriv EcPub SPriv SPub Req Resp)
    (mp : HandshakeCodec Req Resp) (rand : List Nat) (c : StlConn EcPriv EcPub SPriv SPub)
    (cc : ClientConfig EcPriv EcPub SPriv SPub) (reqBytes respBytes rest : Bytes)
    (resp : Option Resp) (hc' : clientHandshaker EcPriv EcPub)
    (hcfg : c.clientConfig = some cc)
    (hrf : c.conn.readFaults = []) (hwf : c.conn.writeFaults = [])
    (hM : mp.MarshalRequest (h.generateRequest (newClientHandshaker h rand cc)).1
      = .ok reqBytes)
    (hin : c.conn.inbound = PutUint64 respBytes.length ++ respBytes ++ rest)
    (hlen : respBytes.length < u64)
    (hU : mp.UnmarshalResponse respBytes = .ok resp)
    (hP : h.processServerResponse (h.generateRequest (newClientHandshaker h rand cc)).2 resp
      = ((true, none), hc')) :
    (c.handshakeAsClient h mp rand).1 = none ∧
    (c.handshakeAsClient h mp rand).2.sessionKey = hc'.sessionKey := by
  obtain ⟨h8, hm⟩ := ReadFull_message
    ({ c.conn with outbound := c.conn.outbound ++ (PutUint64 reqBytes.length ++ reqBytes),
                   sent := c.conn.sent ++ [PutUint64 reqBytes.length ++ reqBytes] } : NetConn)
    respBytes rest hrf hin
  unfold Conn.handshakeAsClient
  simp only [hcfg, hM, Copy_reliable _ _ hwf, h8, Uint64_PutUint64 _ hlen]
  simp only [] at hm
  simp [hm, hU, hP]

end HandshakeRun

end Signcryption.STL

namespace Signcryption

open STL

theorem sampleKA_agree (x y : Nat) :
    sampleKA.agree x (sampleKA.pub y) = sampleKA.agree y (sampleKA.pub x) := by
  simp only [sampleKA]
  rw [← Nat.pow_mod, ← Nat.pow_mod, ← pow_mul, ← pow_mul, Nat.mul_comm]

theorem sampleKA_verify (k : Nat) (id : Bytes) (rp : Nat) :
    sampleKA.verify (sampleKA.pub k) id rp (sampleKA.sign k id rp) = true := by
  simp [sampleKA]

end Signcryption

namespace Signcryption.STL

section HandshakeSymmetry

variable {EcPriv EcPub SPriv SPub : Type}

/-- C5. Handshake symmetry, for the handshakers modelled from the spec. The client and
server configurations match (the client expects the server's identity and
handshake public key, and the verifier authorizes the client's identity, handshake
public key and tunnel binding); key agreement is symmetric and the server's
signature verifies; the serializer encodes the request and the response of this run
and decodes them back; the stream is reliable and each end's unread input is what
the other end writes. Then `handshakeAsClient` and `handshakeAsServer` both succeed
and the two `Conn`s store the same session key. -/
theorem handshake_symmetry (K : KeyAgreement EcPriv EcPub)
    (toECDSA : Option SPriv → Option EcPriv) (fromECDSA : Option EcPub → Bytes → Option SPub)
    (mp : HandshakeCodec (handshakeRequest EcPub) (handshakeResponse EcPub))
    (cc : ClientConfig EcPriv EcPub SPriv SPub) (sc : ServerConfig EcPriv EcPub SPriv)
    (c s : StlConn EcPriv EcPub SPriv SPub) (randC randS : List Nat)
    (a b : EcPriv) (tunnelPub : EcPub)
    (req : Option (handshakeRequest EcPub)) (resp : Option (handshakeResponse EcPub))
    (reqBytes respBytes : Bytes)
    (hc : c.clientConfig = some cc) (hs : s.serverConfig = some sc)
    (hca : cc.HandshakePrivateKey = some a) (hsb : sc.SignaturePrivateKey = some b)
    (htun : cc.TunnelEncryptionPublicKey = some tunnelPub)
    (hid : cc.ServerID = sc.ID)
    (hpk : cc.ServerHandshakePublicKey = some (K.pub b))
    (hver : sc.SessionVerifier cc.ClientID (some (K.pub a)) (some (K.pub b)) cc.TunnelID
      (some tunnelPub) = (true, none))
    (hagree : ∀ x y, K.agree x (K.pub y) = K.agree y (K.pub x))
    (hsig : ∀ k id rp, K.verify (K.pub k) id rp (K.sign k id rp) = true)
    (hreq : req = ((specHandshakers K toECDSA fromECDSA).generateRequest
      (newClientHandshaker (specHandshakers K toECDSA fromECDSA) randC cc)).1)
    (hresp : resp = ((specHandshakers K toECDSA fromECDSA).processRequest
      (newServerHandshaker randS sc) req).1.1)
    (hreqM : mp.MarshalRequest req = .ok reqBytes)
    (hreqU : mp.UnmarshalRequest reqBytes = .ok req)
    (hreqL : reqBytes.length < u64)
    (hrespM : mp.MarshalResponse resp = .ok respBytes)
    (hrespU : mp.UnmarshalResponse respBytes = .ok (resp.map handshakeResponse.exported))
    (hrespL : respBytes.length < u64)
    (hcr : c.conn.readFaults = []) (hcw : c.conn.writeFaults = [])
    (hsr : s.conn.readFaults = []) (hsw : s.conn.writeFaults = [])
    (hco : c.conn.outbound = []) (hso : s.conn.outbound = [])
    (hwire1 : s.conn.inbound =
      (c.handshakeAsClient (specHandshakers K toECDSA fromECDSA) mp randC).2.conn.outbound)
    (hwire2 : c.conn.inbound =
      (s.handshakeAsServer (specHandshakers K toECDSA fromECDSA) mp randS).2.conn.outbound) :
    (c.handshakeAsClient (specHandshakers K toECDSA fromECDSA) mp randC).1 = none ∧
    (s.handshakeAsServer (specHandshakers K toECDSA fromECDSA) mp randS).1 = none ∧
    (c.handshakeAsClient (specHandshakers K toECDSA fromECDSA) mp randC).2.sessionKey =
      (s.handshakeAsServer (specHandshakers K toECDSA fromECDSA) mp randS).2.sessionKey := by
  -- the request the client builds
  have hreq' : req = some
      { ID := cc.ClientID
        HandshakePublicKey := some (K.pub a)
        TunnelID := cc.TunnelID
        TunnelPublicKey := some tunnelPub
        EncryptionPublicKey := (toECDSA cc.EncryptionPrivateKey).map K.pub } := by
    rw [hreq]
    simp [specHandshakers, specGenerateRequest, newClientHandshaker, hca, htun]
  -- the response the server builds
  have hproc : (specHandshakers K toECDSA fromECDSA).processRequest
      (newServerHandshaker randS sc) req =
      ((some { ID := sc.ID
               ResponsePublicKey := some (K.pub (K.generate (randS.headD 0)))
               Signature := K.sign b sc.ID (K.pub (K.generate (randS.headD 0)))
               encryptionPublicKey := (toECDSA cc.EncryptionPrivateKey).map K.pub },
        true, none),
       { newServerHandshaker randS sc with
          rand := randS.tail
          sessionKey := K.agree (K.generate (randS.headD 0)) (K.pub a) }) := by
    rw [hreq']
    simp [specHandshakers, specProcessRequest, newServerHandshaker, hsb, hver]
  have hresp' : resp = some
      { ID := sc.ID
        ResponsePublicKey := some (K.pub (K.generate (randS.headD 0)))
        Signature := K.sign b sc.ID (K.pub (K.generate (randS.headD 0)))
        encryptionPublicKey := (toECDSA cc.EncryptionPrivateKey).map K.pub } := by
    rw [hresp, hproc]
  -- what the client has written reaches the server
  have hout := handshakeAsClient_outbound (specHandshakers K toECDSA fromECDSA) mp randC c cc
    reqBytes hc hcw (by rw [← hreq]; exact hreqM)
  rw [hco, List.nil_append] at hout
  have hsin : s.conn.inbound = PutUint64 reqBytes.length ++ reqBytes ++ [] := by
    rw [hwire1, hout, List.append_nil]
  obtain ⟨s1, s2, s3⟩ := handshakeAsServer_run (specHandshakers K toECDSA fromECDSA) mp randS s sc
    reqBytes respBytes [] _ _ _ hs hsr hsw hsin hreqL (by rw [hreqU, hreq'])
    (by rw [← hreq']; exact hproc) (by rw [← hresp']; exact hrespM)
  -- what the server has written reaches the client
  rw [hso, List.nil_append] at s3
  have hcin : c.conn.inbound = PutUint64 respBytes.length ++ respBytes ++ [] := by
    rw [hwire2, s3, List.append_nil]
  have hcli : (specHandshakers K toECDSA fromECDSA).processServerResponse
      ((specHandshakers K toECDSA fromECDSA).generateRequest
        (newClientHandshaker (specHandshakers K toECDSA fromECDSA) randC cc)).2
      (resp.map handshakeResponse.exported) =
      ((true, none),
       { newClientHandshaker (specHandshakers K toECDSA fromECDSA) randC cc with
          sessionKey := K.agree a (K.pub (K.generate (randS.headD 0))) }) := by
    rw [hresp']
    simp [specHandshakers, specGenerateRequest, specProcessServerResponse, newClientHandshaker,
      handshakeResponse.exported, hca, hpk, hid, hsig]
  obtain ⟨c1, c2⟩ := handshakeAsClient_run (specHandshakers K toECDSA fromECDSA) mp randC c cc
    reqBytes respBytes [] _ _ hc hcr hcw (by rw [← hreq]; exact hreqM) hcin hrespL hrespU hcli
  refine ⟨c1, s1, ?_⟩
  rw [c2, s2]
  exact hagree _ _

/-- Witness for C5: the sample client and the sample server, whose verifier
authorizes the client, over a reliable stream; both derive the key `[6]`. -/
theorem handshake_symmetry_witness :
    ((NewConn (sampleNet sampleResponseWire) sampleClientConfig []
        : StlConn Nat Nat Nat Nat).handshakeAsClient sampleHandshakers
        sampleHandshakeCodec []).2.sessionKey =
    ((NewServerConn (sampleNet sampleRequestWire) (sampleServerConfig sampleVerifier) []
        : StlConn Nat Nat Nat Nat).handshakeAsServer sampleHandshakers
        sampleHandshakeCodec [2]).2.sessionKey :=
  (handshake_symmetry sampleKA (fun k => k) (fun k _ => k) sampleHandshakeCodec
    sampleClientConfig (sampleServerConfig sampleVerifier)
    (NewConn (sampleNet sampleResponseWire) sampleClientConfig [])
    (NewServerConn (sampleNet sampleRequestWire) (sampleServerConfig sampleVerifier) [])
    [] [2] 6 15 4
    (some { ID := [0xC1], HandshakePublicKey := some 8, TunnelID := [0x77],
            TunnelPublicKey := some 4, EncryptionPublicKey := some 8 })
    (some { ID := [0x5E], ResponsePublicKey := some 10, Signature := [19, 10, 0x5E],
            encryptionPublicKey := some 8 })
    (sampleRequestWire.drop 8) (sampleResponseWire.drop 8)
    rfl rfl rfl rfl rfl rfl (by decide) (by decide) sampleKA_agree sampleKA_verify
    rfl rfl rfl rfl (by decide) rfl rfl
    (by decide) rfl rfl rfl rfl rfl rfl (by decide) (by decide)).2.2

end HandshakeSymmetry

end Signcryption.STL

namespace Signcryption

/-! ## Certificates -/

theorem getBE_putBE (k n : Nat) : getBE (putBE k n) = n % 256 ^ k := by
  unfold getBE putBE
  rw [List.reverse_reverse, getLE_putLE]

theorem putBE_length (k n : Nat) : (putBE k n).length = k := by
  unfold putBE
  rw [List.length_reverse, putLE_length]

theorem P256_P_lt : P256.P < 256 ^ 32 := by decide

/-- Go `elliptic.Unmarshal` undoes `elliptic.Marshal` on the points of P-256. -/
theorem ellipticUnmarshal_marshal (x y : Nat) (hx : x < P256.P) (hy : y < P256.P)
    (hon : IsOnCurve P256 x y = true) :
    ∃ data, ellipticMarshal P256 (some x) (some y) = some data ∧
      ellipticUnmarshal P256 data = (some x, some y) := by
  have hbl : (P256.BitSize + 7) / 8 = 32 := rfl
  have hx' : x < 256 ^ 32 := Nat.lt_trans hx P256_P_lt
  have hy' : y < 256 ^ 32 := Nat.lt_trans hy P256_P_lt
  refine ⟨(4 : Byte) :: (putBE 32 x ++ putBE 32 y), ?_, ?_⟩
  · unfold ellipticMarshal
    simp only [hbl]
    rw [if_pos ⟨hx', hy'⟩]
  · have hlen : ((4 : Byte) :: (putBE 32 x ++ putBE 32 y)).length = 1 + 2 * 32 := by
      simp [putBE_length]
    have hxs : (((4 : Byte) :: (putBE 32 x ++ putBE 32 y)).drop 1).take 32 = putBE 32 x := by
      rw [List.drop_succ_cons, List.drop_zero, List.take_left' (putBE_length 32 x)]
    have hys : ((4 : Byte) :: (putBE 32 x ++ putBE 32 y)).drop (1 + 32) = putBE 32 y := by
      rw [Nat.add_comm 1 32, List.drop_succ_cons, List.drop_left' (putBE_length 32 x)]
    unfold ellipticUnmarshal
    simp only [hbl, hlen, hxs, hys, getBE_putBE, Nat.mod_eq_of_lt hx', Nat.mod_eq_of_lt hy',
      List.head?_cons, ne_eq, not_true_eq_false, if_false, hon, Bool.not_true,
      Bool.false_eq_true]
    rw [if_neg (by omega)]

theorem keyEqual_self (x y : Nat) :
    keyEqual (some { Curve := P256, X := some x, Y := some y })
      (some { Curve := StandardCurve, X := some x, Y := some y }) = some true := by
  simp [keyEqual, cmpEq, StandardCurve]

/-- C7. Certificate round trip. The key generator returns points of P-256 and the
serializer encodes every `marshalCert` record and decodes it back. Then for every
certificate `GenerateCertificate` produces and every ID the caller assigns, the
blank one included, `Marshal` succeeds, `UnmarshalCertificate` succeeds on its
output, and `Equal` holds between the certificate and the decoded one. -/
theorem certificate_round_trip (mp : CertCodec)
    (genKey : Curve → List Nat → Except Err PrivateKey × List Nat) (rand : List Nat)
    (c : Certificate) (id : Bytes)
    (hgen : ∀ r k r', genKey StandardCurve r = (.ok k, r') →
      k.PublicKey.Curve = P256 ∧
      ∃ x y, k.PublicKey.X = some x ∧ k.PublicKey.Y = some y ∧
        x < P256.P ∧ y < P256.P ∧ IsOnCurve P256 x y = true)
    (hmp : ∀ m, ∃ bs, mp.Marshal m = .ok bs ∧ mp.Unmarshal bs = .ok (some m))
    (hc : GenerateCertificate genKey rand = .ok c) :
    ∃ bs c2, ({ c with ID := id } : Certificate).Marshal mp = .ok bs ∧
      UnmarshalCertificate mp bs = .ok c2 ∧
      ({ c with ID := id } : Certificate).Equal c2 = some true := by
  unfold GenerateCertificate at hc
  cases h1 : genKey StandardCurve rand with
  | mk r1 rand1 =>
    rw [h1] at hc
    cases r1 with
    | error e => simp at hc
    | ok hk =>
      simp only [] at hc
      cases h2 : genKey StandardCurve rand1 with
      | mk r2 rand2 =>
        rw [h2] at hc
        cases r2 with
        | error e => simp at hc
        | ok ek =>
          simp only [Except.ok.injEq] at hc
          subst hc
          obtain ⟨hcv, hx, hy, hX, hY, hxlt, hylt, hon⟩ := hgen _ _ _ h1
          obtain ⟨ecv, ex, ey, eX, eY, exlt, eylt, eon⟩ := hgen _ _ _ h2
          obtain ⟨hd, hm1, hu1⟩ := ellipticUnmarshal_marshal hx hy hxlt hylt hon
          obtain ⟨ed, em1, eu1⟩ := ellipticUnmarshal_marshal ex ey exlt eylt eon
          obtain ⟨bs, hM, hU⟩ := hmp ⟨id, hd, ed⟩
          have hpk : hk.PublicKey = { Curve := P256, X := some hx, Y := some hy } := by
            cases hkp : hk.PublicKey with
            | mk cv X Y => rw [hkp] at hcv hX hY; simp only [] at hcv hX hY; rw [hcv, hX, hY]
          have epk : ek.PublicKey = { Curve := P256, X := some ex, Y := some ey } := by
            cases ekp : ek.PublicKey with
            | mk cv X Y => rw [ekp] at ecv eX eY; simp only [] at ecv eX eY; rw [ecv, eX, eY]
          refine ⟨bs,
            { ID := id
              EncryptionPrivateKey := none
              EncryptionPublicKey := some { Curve := StandardCurve, X := some ex, Y := some ey }
              HandshakePrivateKey := none
              HandshakePublicKey := some { Curve := StandardCurve, X := some hx, Y := some hy } },
            ?_, ?_, ?_⟩
          · simp only [Certificate.Marshal, hpk, epk, hm1, em1]
            exact hM
          · simp only [UnmarshalCertificate, hU, StandardCurve, hu1, eu1]
          · simp only [Certificate.Equal, hpk, epk, if_true, keyEqual_self]

theorem sampleCertCodec_inverse (m : marshalCert) :
    ∃ bs, sampleCertCodec.Marshal m = .ok bs ∧ sampleCertCodec.Unmarshal bs = .ok (some m) := by
  refine ⟨_, rfl, ?_⟩
  simp only [sampleCertCodec]
  rw [List.append_assoc, sampleUnframe_frame]
  simp only []
  rw [sampleUnframe_frame]

theorem sampleGenKey_on_curve (r : List Nat) (k : PrivateKey) (r' : List Nat)
    (h : sampleGenKey StandardCurve r = (.ok k, r')) :
    k.PublicKey.Curve = P256 ∧
      ∃ x y, k.PublicKey.X = some x ∧ k.PublicKey.Y = some y ∧
        x < P256.P ∧ y < P256.P ∧ IsOnCurve P256 x y = true := by
  cases r with
  | nil => simp [sampleGenKey] at h
  | cons v vs =>
    simp only [sampleGenKey, Prod.mk.injEq, Except.ok.injEq] at h
    obtain ⟨hk, _⟩ := h
    subst hk
    exact ⟨rfl, _, _, rfl, rfl, by decide, by decide, by decide⟩

/-- Witness for C7: a certificate generated from the sample key generator, given the
ID `[7]`. -/
theorem certificate_round_trip_witness :
    ∃ bs c2,
      ({ ({ ID := []
            HandshakePublicKey := some P256G
            EncryptionPublicKey := some P256G
            HandshakePrivateKey := some { PublicKey := P256G, D := some 1 }
            EncryptionPrivateKey := some { PublicKey := P256G, D := some 1 } } : Certificate)
          with ID := [7] } : Certificate).Marshal sampleCertCodec = .ok bs ∧
      UnmarshalCertificate sampleCertCodec bs = .ok c2 ∧
      ({ ({ ID := []
            HandshakePublicKey := some P256G
            EncryptionPublicKey := some P256G
            HandshakePrivateKey := some { PublicKey := P256G, D := some 1 }
            EncryptionPrivateKey := some { PublicKey := P256G, D := some 1 } } : Certificate)
          with ID := [7] } : Certificate).Equal c2 = some true :=
  certificate_round_trip sampleCertCodec sampleGenKey [1, 2] _ [7]
    sampleGenKey_on_curve sampleCertCodec_inverse rfl

/-- C8, what the code does. Once the serializer has decoded a record,
`UnmarshalCertificate` returns a certificate and no error, whatever the two key
fields hold: the results of `elliptic.Unmarshal` are stored unchecked, so a key
field that is not the uncompressed form of a point on P-256 gives a certificate
with nil coordinates instead of a decode error. -/
theorem unmarshal_certificate_keeps_invalid_keys (mp : CertCodec) (b : Bytes) (m : marshalCert)
    (hU : mp.Unmarshal b = .ok (some m)) :
    UnmarshalCertificate mp b = .ok
      { ID := m.ID
        EncryptionPrivateKey := none
        EncryptionPublicKey := some
          { Curve := StandardCurve
            X := (ellipticUnmarshal StandardCurve m.EncryptionPublicKey).1
            Y := (ellipticUnmarshal StandardCurve m.EncryptionPublicKey).2 }
        HandshakePrivateKey := none
        HandshakePublicKey := some
          { Curve := StandardCurve
            X := (ellipticUnmarshal StandardCurve m.HandshakePublicKey).1
            Y := (ellipticUnmarshal StandardCurve m.HandshakePublicKey).2 } } ∧
    ellipticUnmarshal StandardCurve [] = (none, none) ∧
    ellipticUnmarshal StandardCurve ((5 : Byte) :: List.replicate 64 0) = (none, none) ∧
    ellipticUnmarshal StandardCurve ((4 : Byte) :: List.replicate 64 0) = (none, none) := by
  refine ⟨?_, by decide, by decide, by decide⟩
  simp only [UnmarshalCertificate, hU]

/-- Witness for C8: a record with the ID `[1]` and two empty key fields decodes to a
certificate whose four coordinates are nil. -/
theorem unmarshal_certificate_keeps_invalid_keys_witness :
    UnmarshalCertificate sampleCertCodec [1, 1, 0, 0] = .ok
      { ID := [1]
        EncryptionPrivateKey := none
        EncryptionPublicKey := some { Curve := P256, X := none, Y := none }
        HandshakePrivateKey := none
        HandshakePublicKey := some { Curve := P256, X := none, Y := none } } :=
  (unmarshal_certificate_keeps_invalid_keys sampleCertCodec [1, 1, 0, 0]
    { ID := [1], HandshakePublicKey := [], EncryptionPublicKey := [] } rfl).1

end Signcryption
